import Mathlib

/-!
# thrawn01/whois: the tool-call handler and the command-line front end

A shallow embedding of `cmd/mcp-whois/main.go` (`handleWhoisLookup`) and of
`cmd/whois/main.go` (`main`).  The collaborators that live outside these two
files (the whois client library, the record parser, the JSON renderers) are
taken as fields of an environment; every call to one of them is recorded in a
trace, so that statements about which collaborator is invoked, how often and
with which arguments can be made about the code.
-/

namespace Whois

/-! ## Go values -/

/-- Go `error` values: a plain error carries its message; an error built by
`fmt.Errorf` with the `%w` verb carries its formatted message and the error it
wraps. -/
inductive GoError where
  | plain (msg : String)
  | wrapped (msg : String) (inner : GoError)
deriving DecidableEq, Repr

/-- The `Error()` method: the message of the error. -/
def GoError.Error : GoError → String
  | .plain m => m
  | .wrapped m _ => m

/-- The `Unwrap()` method: the wrapped error, if any. -/
def GoError.Unwrap : GoError → Option GoError
  | .plain _ => none
  | .wrapped _ e => some e

/-- `fmt.Errorf(lead + "%w", e)`: the message is `lead` followed by the message
of `e`, and the new error wraps `e`. -/
def Errorf (lead : String) (e : GoError) : GoError :=
  .wrapped (lead ++ e.Error) e

/-- Wrap-around of a mathematical integer into the range of Go `int64`. -/
def wrapInt64 (x : Int) : Int :=
  (x + 2 ^ 63) % 2 ^ 64 - 2 ^ 63

/-- A value of `time.Duration` (an `int64` count of nanoseconds). -/
abbrev Duration := Int

/-- The constant `time.Second`. -/
def Second : Duration := 1000000000

/-- Multiplication of two `time.Duration` values, as Go computes it on `int64`. -/
def Duration.mul (a b : Duration) : Duration :=
  wrapInt64 (a * b)

/-! ## The request and the client -/

/-- The struct `WhoisLookupParams` of `cmd/mcp-whois/main.go`.  `Timeout` is a Go
`int` (64 bits on the platforms the server is built for). -/
structure WhoisLookupParams where
  Query : String
  Server : String
  Timeout : Int
  DisableReferral : Bool
  ParseJSON : Bool
deriving DecidableEq, Repr

/-- A pluggable network connector (`proxy.ContextDialer`), known by its name. -/
structure ContextDialer where
  name : String
deriving DecidableEq, Repr

/-- The configuration held by a `whois.Client`: the timeout of a round-trip,
whether referrals are not to be followed, and the connector set by `SetDialer`
(`none` for the direct connector the client starts with). -/
structure Client where
  timeout : Duration
  disableReferral : Bool
  dialer : Option ContextDialer
deriving DecidableEq, Repr

/-- Modelled from the spec: the constant `defaultTimeout` of the client library,
which is not among the sources; the spec gives the default timeout as 30
seconds. -/
def defaultTimeout : Duration := 30 * Second

/-- Modelled from the spec: the constructor `whois.NewClient` of the client
library, which is not among the sources; a new client has the default timeout,
follows referrals, and dials directly. -/
def NewClient : Client :=
  { timeout := defaultTimeout, disableReferral := false, dialer := none }

/-- The setter `SetTimeout` of the client. -/
def Client.SetTimeout (c : Client) (t : Duration) : Client :=
  { c with timeout := t }

/-- The setter `SetDisableReferral` of the client. -/
def Client.SetDisableReferral (c : Client) (b : Bool) : Client :=
  { c with disableReferral := b }

/-- The setter `SetDialer` of the client. -/
def Client.SetDialer (c : Client) (d : ContextDialer) : Client :=
  { c with dialer := some d }

/-! ## Collaborators and traces -/

/-- One connection attempt made by the transport: the server dialled, the
subject sent and the timeout that applied. -/
structure Dial where
  server : String
  subject : String
  timeout : Duration
deriving DecidableEq, Repr

/-- What `client.Whois` hands back: the two Go return values, and the
connection attempts made while it ran. -/
structure WhoisRet where
  result : String
  err : Option GoError
  dials : List Dial
deriving DecidableEq, Repr

/-- The collaborators of the two programs.  `Info` is the record type of the
parser (`whoisparser.WhoisInfo`).  `Whois c q servers` is the method
`c.Whois(q, servers...)`; `Parse` is `whoisparser.Parse`; `MarshalIndent v p i`
is `json.MarshalIndent(v, p, i)` with its bytes read as a string;
`PrettyDumps` is `xjson.PrettyDumps`. -/
structure Env (Info : Type) where
  Whois : Client → String → List String → WhoisRet
  Parse : String → Info × Option GoError
  MarshalIndent : Info → String → String → String × Option GoError
  PrettyDumps : Info → String × Option GoError

/-- The observable calls a program makes to its collaborators. -/
inductive Event (Info : Type) where
  | whois (c : Client) (query : String) (servers : List String)
  | dial (d : Dial)
  | parse (text : String)
  | marshalIndent (v : Info) (pfx : String) (indent : String)
  | prettyDumps (v : Info)
deriving DecidableEq, Repr

/-- Whether an event is a call of the resolution. -/
def Event.isWhois {Info : Type} : Event Info → Bool
  | .whois _ _ _ => true
  | _ => false

/-- Whether an event is a connection attempt. -/
def Event.isDial {Info : Type} : Event Info → Bool
  | .dial _ => true
  | _ => false

/-- Whether an event is a call of the record parser. -/
def Event.isParse {Info : Type} : Event Info → Bool
  | .parse _ => true
  | _ => false

/-- Whether an event is a call of a JSON renderer. -/
def Event.isMarshal {Info : Type} : Event Info → Bool
  | .marshalIndent _ _ _ => true
  | .prettyDumps _ => true
  | _ => false

/-! ## The tool-call handler -/

/-- The content items of a tool-call result (`mcp.Content`); the handler only
ever builds text items. -/
inductive Content where
  | TextContent (Text : String)
  | ImageContent (Data : String) (MIMEType : String)
deriving DecidableEq, Repr

/-- The struct `mcp.CallToolResultFor[any]`, as far as the handler fills it. -/
structure CallToolResult where
  Content : List Content
deriving DecidableEq, Repr

/-- The two return values of `handleWhoisLookup` (`none` is Go `nil`), and the
trace of the calls it made. -/
structure Outcome (Info : Type) where
  result : Option CallToolResult
  err : Option GoError
  trace : List (Event Info)

/-- The client the handler configures before the query
(`cmd/mcp-whois/main.go`, lines 65 to 76). -/
def configureClient (args : WhoisLookupParams) : Client :=
  let client := NewClient
  let client :=
    if args.Timeout > 0 then client.SetTimeout (Duration.mul args.Timeout Second)
    else client
  if args.DisableReferral then client.SetDisableReferral true else client

/-- The variadic server arguments the handler passes to `client.Whois`
(lines 81 to 85). -/
def serverArgs (args : WhoisLookupParams) : List String :=
  if args.Server ≠ "" then [args.Server] else []

/-- The query the handler performs (lines 78 to 85): `client.Whois` on the
configured client, with the query as given and the server arguments above. -/
def resolution {Info : Type} (env : Env Info) (args : WhoisLookupParams) : WhoisRet :=
  env.Whois (configureClient args) args.Query (serverArgs args)

/-- The function `handleWhoisLookup` of `cmd/mcp-whois/main.go`. -/
def handleWhoisLookup {Info : Type} (env : Env Info) (args : WhoisLookupParams) :
    Outcome Info :=
  let client := configureClient args
  let w := resolution env args
  let tr : List (Event Info) :=
    Event.whois client args.Query (serverArgs args) :: w.dials.map Event.dial
  match w.err with
  | some e => { result := none, err := some (Errorf "whois query failed: " e), trace := tr }
  | none =>
    if args.ParseJSON then
      let p := env.Parse w.result
      match p.2 with
      | some parseErr =>
        { result := some { Content := [Content.TextContent
            ("Failed to parse whois data as JSON: " ++ parseErr.Error
              ++ "\n\nRaw whois data:\n" ++ w.result)] },
          err := none,
          trace := tr ++ [Event.parse w.result] }
      | none =>
        let j := env.MarshalIndent p.1 "" "  "
        match j.2 with
        | some e =>
          { result := none,
            err := some (Errorf "failed to marshal parsed data: " e),
            trace := tr ++ [Event.parse w.result, Event.marshalIndent p.1 "" "  "] }
        | none =>
          { result := some { Content := [Content.TextContent j.1] },
            err := none,
            trace := tr ++ [Event.parse w.result, Event.marshalIndent p.1 "" "  "] }
    else
      { result := some { Content := [Content.TextContent w.result] },
        err := none,
        trace := tr }

/-! ## The command-line front end -/

/-- The process state `main` of `cmd/whois/main.go` ends in: what was written
to standard output, the status passed to `os.Exit`, and the trace of calls. -/
structure Exit (Info : Type) where
  stdout : String
  code : Int
  trace : List (Event Info)

/-- `fmt.Println` of one string: the string and a newline. -/
def Println (s : String) : String :=
  s ++ "\n"

/-- The usage text `main` prints when no positional argument is given. -/
def usage (argv0 : String) : String :=
  "Usage:\n\t" ++ argv0 ++ " [-j] [-h server] domain\n"
    ++ "\ndomain:\n  domain or IPv4 or IPv6 or ASN for query\n\noptions:\n"
    ++ "  -h string specify the whois server\n"
    ++ "  -j        output format as json\n"
    ++ "  -v        show the whois version\n"

/-- The client `main` queries with: a new client, with the connector of the
environment set on it when that connector is a `proxy.ContextDialer`. -/
def cliClient (dialer : Option ContextDialer) : Client :=
  match dialer with
  | some contextDialer => NewClient.SetDialer contextDialer
  | none => NewClient

/-- The function `main` of `cmd/whois/main.go`, from the point where
`flag.Parse` has returned: `server` and `outJSON` are the values of the flags
`-h` and `-j`, `args` is `flag.Args()`, `argv0` is `os.Args[0]`, and `dialer` is
the connector of `proxy.FromEnvironment()` when it is a context dialer. -/
def main {Info : Type} (env : Env Info) (dialer : Option ContextDialer) (argv0 : String)
    (server : String) (outJSON : Bool) (args : List String) : Exit Info :=
  match args with
  | [] => { stdout := usage argv0, code := 1, trace := [] }
  | subject :: _ =>
    let client := cliClient dialer
    let w := env.Whois client subject [server]
    let tr : List (Event Info) :=
      Event.whois client subject [server] :: w.dials.map Event.dial
    match w.err with
    | some err => { stdout := Println err.Error, code := 1, trace := tr }
    | none =>
      if outJSON then
        let p := env.Parse w.result
        match p.2 with
        | some err =>
          { stdout := Println err.Error, code := 1, trace := tr ++ [Event.parse w.result] }
        | none =>
          let d := env.PrettyDumps p.1
          match d.2 with
          | some err =>
            { stdout := Println err.Error, code := 1,
              trace := tr ++ [Event.parse w.result, Event.prettyDumps p.1] }
          | none =>
            { stdout := Println d.1, code := 0,
              trace := tr ++ [Event.parse w.result, Event.prettyDumps p.1] }
      else
        { stdout := Println w.result, code := 0, trace := tr }

/-! ## The resolution engine, from the specification -/

/-- Modelled from the spec: the parts of the resolution engine that the spec
leaves to tables and to the network, none of which is among the sources:
`defaultServer` is the classification of a subject to its default server,
`referral` is the scan of a response for a referral marker with a non-empty
host, and `transport` is one round-trip to a server with a subject and a
timeout, which yields the response text or fails. -/
structure Engine where
  defaultServer : String → String
  referral : String → Option String
  transport : String → String → Duration → Except GoError String

/-- Modelled from the spec: the error `InvalidSubject` of the error taxonomy,
raised for an empty subject; the client library is not among the sources. -/
def InvalidSubject : GoError :=
  .plain "InvalidSubject"

/-- Modelled from the spec: the timeout a round-trip of the transport runs
under, which is the default when the given one is unset or not positive; the
transport is not among the sources. -/
def effectiveTimeout (t : Duration) : Duration :=
  if t > 0 then t else defaultTimeout

/-- Modelled from the spec: server selection of the resolver, which is not
among the sources: an explicit server is used verbatim, otherwise the subject
is classified. -/
def selectServer (E : Engine) (subject : String) (servers : List String) : String :=
  match servers with
  | s :: _ => if s ≠ "" then s else E.defaultServer subject
  | [] => E.defaultServer subject

/-- Modelled from the spec: the method `Client.Whois` of the client library,
which is not among the sources.  An empty subject fails before any network
activity; the first round-trip goes to the selected server and its failure is
the failure of the resolution; when the response names a referred server that
differs from the one just queried and referrals are followed, a second
round-trip goes to it, its response is appended to the first, and its failure
leaves the first response as the result. -/
def specWhois (E : Engine) (c : Client) (subject : String) (servers : List String) :
    WhoisRet :=
  if subject = "" then
    { result := "", err := some InvalidSubject, dials := [] }
  else
    let a := selectServer E subject servers
    let t := effectiveTimeout c.timeout
    match E.transport a subject t with
    | .error e => { result := "", err := some e, dials := [⟨a, subject, t⟩] }
    | .ok first =>
      match E.referral first with
      | none => { result := first, err := none, dials := [⟨a, subject, t⟩] }
      | some b =>
        if c.disableReferral = false ∧ b ≠ "" ∧ b ≠ a then
          match E.transport b subject t with
          | .ok second =>
            { result := first ++ second, err := none,
              dials := [⟨a, subject, t⟩, ⟨b, subject, t⟩] }
          | .error _ =>
            { result := first, err := none,
              dials := [⟨a, subject, t⟩, ⟨b, subject, t⟩] }
        else
          { result := first, err := none, dials := [⟨a, subject, t⟩] }

/-- An environment whose resolution is the engine of the specification. -/
def withEngine {Info : Type} (env : Env Info) (E : Engine) : Env Info :=
  { env with Whois := specWhois E }

/-! ## Concrete environments for evaluation -/

/-- An environment over string records whose collaborators return fixed
values. -/
def constEnv (w : WhoisRet) (p : String × Option GoError)
    (j : String × Option GoError) : Env String :=
  { Whois := fun _ _ _ => w,
    Parse := fun _ => p,
    MarshalIndent := fun _ _ _ => j,
    PrettyDumps := fun _ => j }

/-- A request for `example.com` with every optional field at its zero value. -/
def exampleArgs : WhoisLookupParams :=
  { Query := "example.com", Server := "", Timeout := 0,
    DisableReferral := false, ParseJSON := false }

/-- An engine with one registry `a.example`, whose response refers to
`b.example`, which cannot be reached. -/
def referringEngine : Engine :=
  { defaultServer := fun _ => "a.example",
    referral := fun r => if r = "refer: b.example" then some "b.example" else none,
    transport := fun s _ _ =>
      if s = "a.example" then .ok "refer: b.example"
      else .error (.plain "connection refused") }

/-- An environment whose resolution answers with its own arguments: the text is
the query followed by `@` and the server for every server it is given, and it
dials every server it is given once, with the timeout of the client; the text
never parses. -/
def echoEnv : Env String :=
  { Whois := fun c q servers =>
      ⟨q ++ String.join (servers.map fun s => "@" ++ s), none,
        servers.map fun s => ⟨s, q, c.timeout⟩⟩,
    Parse := fun _ => ("", some (.plain "domain is not found")),
    MarshalIndent := fun _ _ _ => ("", none),
    PrettyDumps := fun _ => ("", none) }

/-! ## The JSON form of the request

`WhoisLookupParams` is marshalled and unmarshalled by Go `encoding/json`
according to the struct tags of `cmd/mcp-whois/main.go`. Go strings are byte
sequences, so the request is modelled here with its strings as bytes. -/

namespace GoJSON

/-! ### The encoder -/

/-- A Go string or byte slice: its bytes, each below 256. -/
abbrev Bytes := List Nat

/-- The bytes of a string constant of the source (all of them ASCII). -/
def ascii (s : String) : Bytes :=
  s.data.map Char.toNat

/-- Go `utf8.RuneError`, the replacement character U+FFFD. -/
def RuneError : Nat := 0xFFFD

/-- Go `utf8` accept ranges: the least second byte allowed after the first byte `b0`. -/
def acceptLo (b0 : Nat) : Nat :=
  if b0 = 0xE0 then 0xA0 else if b0 = 0xF0 then 0x90 else 0x80

/-- Go `utf8` accept ranges: the greatest second byte allowed after the first byte `b0`. -/
def acceptHi (b0 : Nat) : Nat :=
  if b0 = 0xED then 0x9F else if b0 = 0xF4 then 0x8F else 0xBF

/-- A UTF-8 continuation byte. -/
def isCont (b : Nat) : Bool :=
  0x80 ≤ b && b ≤ 0xBF

/-- Go `utf8.DecodeRune`: the first rune of the bytes and its width; an invalid
encoding gives `(RuneError, 1)`, no bytes give `(RuneError, 0)`. -/
def decodeRune : Bytes → Nat × Nat
  | [] => (RuneError, 0)
  | b0 :: rest =>
    if b0 < 0x80 then (b0, 1)
    else if b0 < 0xC2 then (RuneError, 1)
    else if b0 < 0xE0 then
      match rest with
      | b1 :: _ =>
        if isCont b1 then (b0 % 32 * 64 + b1 % 64, 2) else (RuneError, 1)
      | [] => (RuneError, 1)
    else if b0 < 0xF0 then
      match rest with
      | b1 :: b2 :: _ =>
        if acceptLo b0 ≤ b1 ∧ b1 ≤ acceptHi b0 ∧ isCont b2 then
          (b0 % 16 * 4096 + b1 % 64 * 64 + b2 % 64, 3)
        else (RuneError, 1)
      | _ => (RuneError, 1)
    else if b0 < 0xF5 then
      match rest with
      | b1 :: b2 :: b3 :: _ =>
        if acceptLo b0 ≤ b1 ∧ b1 ≤ acceptHi b0 ∧ isCont b2 ∧ isCont b3 then
          (b0 % 8 * 262144 + b1 % 64 * 4096 + b2 % 64 * 64 + b3 % 64, 4)
        else (RuneError, 1)
      | _ => (RuneError, 1)
    else (RuneError, 1)

/-- Go `utf8.EncodeRune`: the UTF-8 bytes of a rune; surrogates and values beyond
U+10FFFF are written as U+FFFD. -/
def encodeRune (r : Nat) : Bytes :=
  if r < 0x80 then [r]
  else if r < 0x800 then [0xC0 + r / 64, 0x80 + r % 64]
  else if r > 0x10FFFF ∨ (0xD800 ≤ r ∧ r ≤ 0xDFFF) then [0xEF, 0xBF, 0xBD]
  else if r < 0x10000 then [0xE0 + r / 4096, 0x80 + r / 64 % 64, 0x80 + r % 64]
  else [0xF0 + r / 262144, 0x80 + r / 4096 % 64, 0x80 + r / 64 % 64, 0x80 + r % 64]

/-- The loop of Go `utf8.ValidString`, one rune at a step; the fuel is the number of
bytes left. -/
def validLoop : Nat → Bytes → Bool
  | _, [] => true
  | 0, _ :: _ => false
  | fuel + 1, b :: rest =>
    let d := decodeRune (b :: rest)
    if d.1 = RuneError ∧ d.2 = 1 then false
    else validLoop fuel ((b :: rest).drop d.2)

/-- Go `utf8.ValidString`: the bytes are entirely valid UTF-8. -/
def ValidString (s : Bytes) : Bool :=
  validLoop s.length s

/-- The loop of the coercion to valid UTF-8 that `json.Marshal` documents for
strings ("replacing invalid bytes with the Unicode replacement rune"): every
byte at which no valid encoding starts becomes the three bytes `EF BF BD` of
U+FFFD, every validly encoded rune is kept; the fuel is the number of bytes
left. -/
def coerceLoop : Nat → Bytes → Bytes
  | _, [] => []
  | 0, _ :: _ => []
  | fuel + 1, b :: rest =>
    let d := decodeRune (b :: rest)
    if d.1 = RuneError ∧ d.2 = 1 then [0xEF, 0xBF, 0xBD] ++ coerceLoop fuel rest
    else (b :: rest).take d.2 ++ coerceLoop fuel ((b :: rest).drop d.2)

/-- A string coerced to valid UTF-8, every invalid byte replaced by U+FFFD. -/
def coerceUTF8 (s : Bytes) : Bytes :=
  coerceLoop s.length s

/-- The lower-case hexadecimal digit for a value below 16. -/
def hexDigit (d : Nat) : Nat :=
  if d < 10 then 0x30 + d else 0x57 + d

/-- Go `encoding/json` `htmlSafeSet`: the ASCII bytes written unescaped inside a
JSON string when HTML escaping is on, as it is for `json.Marshal`. -/
def htmlSafe (b : Nat) : Bool :=
  0x20 ≤ b && b < 0x80 && b != 0x22 && b != 0x26 && b != 0x3C && b != 0x3E && b != 0x5C

/-- The bytes `encoding/json` writes for one ASCII byte of a string. -/
def escapeByte (b : Nat) : Bytes :=
  if htmlSafe b then [b]
  else if b = 0x5C ∨ b = 0x22 then [0x5C, b]
  else if b = 0x08 then [0x5C, 0x62]
  else if b = 0x0C then [0x5C, 0x66]
  else if b = 0x0A then [0x5C, 0x6E]
  else if b = 0x0D then [0x5C, 0x72]
  else if b = 0x09 then [0x5C, 0x74]
  else [0x5C, 0x75, 0x30, 0x30, hexDigit (b / 16), hexDigit (b % 16)]

/-- The loop of Go `encoding/json` `appendString` with HTML escaping: ASCII bytes are
escaped by `escapeByte`, an invalid byte is written as the escape `\ufffd` of
U+FFFD (an encoder that writes the bytes `EF BF BD` of U+FFFD instead is read
back alike), U+2028 and U+2029 are escaped, every other rune is copied. -/
def appendLoop : Nat → Bytes → Bytes
  | _, [] => []
  | 0, _ :: _ => []
  | fuel + 1, b :: rest =>
    if b < 0x80 then escapeByte b ++ appendLoop fuel rest
    else
      let d := decodeRune (b :: rest)
      if d.1 = RuneError ∧ d.2 = 1 then
        [0x5C, 0x75, 0x66, 0x66, 0x66, 0x64] ++ appendLoop fuel rest
      else if d.1 = 0x2028 ∨ d.1 = 0x2029 then
        [0x5C, 0x75, 0x32, 0x30, 0x32, hexDigit (d.1 % 16)]
          ++ appendLoop fuel ((b :: rest).drop d.2)
      else (b :: rest).take d.2 ++ appendLoop fuel ((b :: rest).drop d.2)

/-- Go `encoding/json` `appendString`: a string as a quoted JSON string. -/
def appendString (s : Bytes) : Bytes :=
  0x22 :: (appendLoop s.length s ++ [0x22])

/-- The digit loop of Go `strconv.AppendInt` in base ten: decimal digits of `u`
in front of `acc`. -/
def formatBits : Nat → Nat → Bytes → Bytes
  | 0, _, acc => acc
  | fuel + 1, u, acc =>
    if u < 10 then (0x30 + u) :: acc
    else formatBits fuel (u / 10) ((0x30 + u % 10) :: acc)

/-- Go `strconv.AppendInt(_, i, 10)`, as `encoding/json` writes an `int` field. -/
def AppendInt (i : Int) : Bytes :=
  if i < 0 then 0x2D :: formatBits 20 (-i).toNat [] else formatBits 20 i.toNat []

/-- The `WhoisLookupParams` of `cmd/mcp-whois/main.go` with its strings as bytes:
`query`, `server`, `timeout`, `disable_referral`, `parse_json`. -/
structure WhoisLookupParams where
  Query : Bytes
  Server : Bytes
  Timeout : Int
  DisableReferral : Bool
  ParseJSON : Bool
deriving DecidableEq, Repr

/-- The quoted key and colon that `encoding/json` writes in front of a field. -/
def name (s : String) : Bytes :=
  0x22 :: (ascii s ++ [0x22, 0x3A])

/-- The members `json.Marshal` writes for a request, from the struct tags of the
source: `query` always, every other field (tagged `omitempty`) unless it is
empty: a string of length zero, the integer zero, the boolean false. -/
def encodeFields (v : WhoisLookupParams) : List Bytes :=
  [name "query" ++ appendString v.Query]
    ++ (if v.Server.length = 0 then [] else [name "server" ++ appendString v.Server])
    ++ (if v.Timeout = 0 then [] else [name "timeout" ++ AppendInt v.Timeout])
    ++ (if v.DisableReferral = false then [] else [name "disable_referral" ++ ascii "true"])
    ++ (if v.ParseJSON = false then [] else [name "parse_json" ++ ascii "true"])

/-- The loop of the struct encoder of `encoding/json`: the byte `next` (an opening
brace at first, then a comma) in front of every member, then the closing brace. -/
def writeFields : Nat → List Bytes → Bytes
  | next, [] => if next = 0x7B then [0x7B, 0x7D] else [0x7D]
  | next, f :: fs => next :: (f ++ writeFields 0x2C fs)

/-- Go `json.Marshal` at a `WhoisLookupParams`. -/
def Marshal (v : WhoisLookupParams) : Bytes :=
  writeFields 0x7B (encodeFields v)


/-! ### The decoder -/

/-- A JSON value as the decoder of `encoding/json` reads it: numbers and strings
keep their literal, respectively their unquoted bytes. -/
inductive JVal where
  | null
  | bool (b : Bool)
  | number (lit : Bytes)
  | string (s : Bytes)
  | array (xs : List JVal)
  | object (kvs : List (Bytes × JVal))
deriving Repr

/-- Go `encoding/json` `isSpace`. -/
def isSpace (c : Nat) : Bool :=
  c = 0x20 || c = 0x09 || c = 0x0D || c = 0x0A

/-- Skip the white space in front of a token. -/
def skipSpace (s : Bytes) : Bytes :=
  s.dropWhile isSpace

/-- The value of a hexadecimal digit. -/
def unhex (c : Nat) : Option Nat :=
  if 0x30 ≤ c ∧ c ≤ 0x39 then some (c - 0x30)
  else if 0x61 ≤ c ∧ c ≤ 0x66 then some (c - 0x61 + 10)
  else if 0x41 ≤ c ∧ c ≤ 0x46 then some (c - 0x41 + 10)
  else none

/-- Go `encoding/json` `getu4`: the code unit of a `\uXXXX` escape at the front of
the bytes. -/
def getu4 : Bytes → Option Nat
  | 0x5C :: 0x75 :: h1 :: h2 :: h3 :: h4 :: _ =>
    match unhex h1, unhex h2, unhex h3, unhex h4 with
    | some a, some b, some c, some d => some (a * 4096 + b * 256 + c * 16 + d)
    | _, _, _, _ => none
  | _ => none

/-- Go `utf16.IsSurrogate`. -/
def isSurrogate (r : Nat) : Bool :=
  0xD800 ≤ r && r < 0xE000

/-- Go `utf16.DecodeRune`: the rune of a surrogate pair, U+FFFD if the pair is
not one. -/
def utf16DecodeRune (r1 r2 : Nat) : Nat :=
  if 0xD800 ≤ r1 ∧ r1 < 0xDC00 ∧ 0xDC00 ≤ r2 ∧ r2 < 0xE000 then
    (r1 - 0xD800) * 1024 + (r2 - 0xDC00) + 0x10000
  else RuneError

/-- The byte of a single-character escape of a JSON string. -/
def unescape (e : Nat) : Option Nat :=
  if e = 0x22 ∨ e = 0x5C ∨ e = 0x2F then some e
  else if e = 0x62 then some 0x08
  else if e = 0x66 then some 0x0C
  else if e = 0x6E then some 0x0A
  else if e = 0x72 then some 0x0D
  else if e = 0x74 then some 0x09
  else none

/-- Put bytes in front of the string unquoted so far. -/
def push (t : Bytes) (r : Option (Bytes × Bytes)) : Option (Bytes × Bytes) :=
  r.map fun x => (t ++ x.1, x.2)

/-- The loop of Go `encoding/json` `unquote` after the opening quote: the bytes
of the string up to its closing quote, and the input after it. Escapes are
resolved, invalid UTF-8 is replaced by U+FFFD, control bytes are refused. -/
def unquoteLoop : Nat → Bytes → Option (Bytes × Bytes)
  | _, [] => none
  | 0, _ :: _ => none
  | fuel + 1, c :: rest =>
    if c = 0x22 then some ([], rest)
    else if c = 0x5C then
      match rest with
      | [] => none
      | e :: rest1 =>
        if e = 0x75 then
          match getu4 (c :: rest) with
          | none => none
          | some rr =>
            if isSurrogate rr then
              match getu4 (rest1.drop 4) with
              | some rr1 =>
                if utf16DecodeRune rr rr1 ≠ RuneError then
                  push (encodeRune (utf16DecodeRune rr rr1)) (unquoteLoop fuel (rest1.drop 10))
                else push (encodeRune RuneError) (unquoteLoop fuel (rest1.drop 4))
              | none => push (encodeRune RuneError) (unquoteLoop fuel (rest1.drop 4))
            else push (encodeRune rr) (unquoteLoop fuel (rest1.drop 4))
        else
          match unescape e with
          | some b => push [b] (unquoteLoop fuel rest1)
          | none => none
    else if c < 0x20 then none
    else if c < 0x80 then push [c] (unquoteLoop fuel rest)
    else
      let d := decodeRune (c :: rest)
      push (encodeRune d.1) (unquoteLoop fuel ((c :: rest).drop d.2))

/-- Go `encoding/json` `unquote`, on the input after the opening quote. -/
def unquote (s : Bytes) : Option (Bytes × Bytes) :=
  unquoteLoop s.length s

/-- An ASCII decimal digit. -/
def isDigit (c : Nat) : Bool :=
  0x30 ≤ c && c ≤ 0x39

/-- One or more digits. -/
def scanDigits (s : Bytes) : Option (Bytes × Bytes) :=
  match s.takeWhile isDigit with
  | [] => none
  | ds => some (ds, s.dropWhile isDigit)

/-- The integer part of a JSON number: a single zero, or digits that do not
start with zero. -/
def scanInt (s : Bytes) : Option (Bytes × Bytes) :=
  match s with
  | [] => none
  | c :: rest =>
    if c = 0x30 then some ([c], rest)
    else if 0x31 ≤ c ∧ c ≤ 0x39 then
      some (c :: rest.takeWhile isDigit, rest.dropWhile isDigit)
    else none

/-- The optional fraction of a JSON number. -/
def scanFrac (s : Bytes) : Option (Bytes × Bytes) :=
  match s with
  | c :: rest =>
    if c = 0x2E then (scanDigits rest).map fun r => (c :: r.1, r.2)
    else some ([], s)
  | [] => some ([], s)

/-- The optional exponent of a JSON number. -/
def scanExp (s : Bytes) : Option (Bytes × Bytes) :=
  match s with
  | c :: rest =>
    if c = 0x65 ∨ c = 0x45 then
      match rest with
      | g :: rest1 =>
        if g = 0x2B ∨ g = 0x2D then (scanDigits rest1).map fun r => (c :: g :: r.1, r.2)
        else (scanDigits rest).map fun r => (c :: r.1, r.2)
      | [] => none
    else some ([], s)
  | [] => some ([], s)

/-- A JSON number without its sign. -/
def scanUnsigned (s : Bytes) : Option (Bytes × Bytes) :=
  match scanInt s with
  | none => none
  | some (i, s1) =>
    match scanFrac s1 with
    | none => none
    | some (f, s2) =>
      match scanExp s2 with
      | none => none
      | some (e, s3) => some (i ++ f ++ e, s3)

/-- A JSON number literal at the front of the input, and the input after it. -/
def scanNumber (s : Bytes) : Option (Bytes × Bytes) :=
  match s with
  | c :: rest =>
    if c = 0x2D then (scanUnsigned rest).map fun r => (c :: r.1, r.2)
    else scanUnsigned s
  | [] => none

/-- One of the literals `true`, `false`, `null` at the front of the input. -/
def scanLiteral (lit : Bytes) (v : JVal) (s : Bytes) : Option (JVal × Bytes) :=
  if s.take lit.length = lit then some (v, s.drop lit.length) else none

/-- Go `encoding/json` `maxNestingDepth`: the scanner refuses input whose
objects and arrays are nested deeper. -/
def maxNestingDepth : Nat := 10000

mutual
/-- The JSON value at the front of the input, and the input after it, inside
`depth` enclosing objects and arrays; an object or array that would be nested
deeper than `maxNestingDepth` is refused. The fuel bounds the number of
values read. -/
def parseValue : Nat → Nat → Bytes → Option (JVal × Bytes)
  | 0, _, _ => none
  | fuel + 1, depth, s =>
    match skipSpace s with
    | [] => none
    | c :: rest =>
      if c = 0x22 then (unquote rest).map fun r => (JVal.string r.1, r.2)
      else if c = 0x7B then
        if maxNestingDepth ≤ depth then none
        else
          match skipSpace rest with
          | [] => none
          | c1 :: rest1 =>
            if c1 = 0x7D then some (JVal.object [], rest1)
            else (parseMembers fuel (depth + 1) (c1 :: rest1)).map
              fun r => (JVal.object r.1, r.2)
      else if c = 0x5B then
        if maxNestingDepth ≤ depth then none
        else
          match skipSpace rest with
          | [] => none
          | c1 :: rest1 =>
            if c1 = 0x5D then some (JVal.array [], rest1)
            else (parseElements fuel (depth + 1) (c1 :: rest1)).map
              fun r => (JVal.array r.1, r.2)
      else if c = 0x74 then scanLiteral (ascii "true") (JVal.bool true) (c :: rest)
      else if c = 0x66 then scanLiteral (ascii "false") (JVal.bool false) (c :: rest)
      else if c = 0x6E then scanLiteral (ascii "null") JVal.null (c :: rest)
      else (scanNumber (c :: rest)).map fun r => (JVal.number r.1, r.2)
/-- The members of an object after its opening brace, up to the closing brace;
`depth` counts the object itself. -/
def parseMembers : Nat → Nat → Bytes → Option (List (Bytes × JVal) × Bytes)
  | 0, _, _ => none
  | fuel + 1, depth, s =>
    match skipSpace s with
    | [] => none
    | c :: rest =>
      if c = 0x22 then
        match unquote rest with
        | none => none
        | some (key, rest1) =>
          match skipSpace rest1 with
          | [] => none
          | c2 :: rest2 =>
            if c2 = 0x3A then
              match parseValue fuel depth rest2 with
              | none => none
              | some (v, rest3) =>
                match skipSpace rest3 with
                | [] => none
                | c4 :: rest4 =>
                  if c4 = 0x2C then
                    (parseMembers fuel depth rest4).map fun r => ((key, v) :: r.1, r.2)
                  else if c4 = 0x7D then some ([(key, v)], rest4)
                  else none
            else none
      else none
/-- The elements of an array after its opening bracket, up to the closing
bracket; `depth` counts the array itself. -/
def parseElements : Nat → Nat → Bytes → Option (List JVal × Bytes)
  | 0, _, _ => none
  | fuel + 1, depth, s =>
    match parseValue fuel depth s with
    | none => none
    | some (v, rest) =>
      match skipSpace rest with
      | [] => none
      | c :: rest1 =>
        if c = 0x2C then (parseElements fuel depth rest1).map fun r => (v :: r.1, r.2)
        else if c = 0x5D then some ([v], rest1)
        else none
end

/-- Go `encoding/json` `foldName`: a key folded for the case-insensitive match
of field names. -/
def foldName : Bytes → Bytes
  | [] => []
  | 0xC5 :: 0xBF :: rest => 0x53 :: foldName rest
  | 0xE2 :: 0x84 :: 0xAA :: rest => 0x4B :: foldName rest
  | c :: rest => (if 0x61 ≤ c ∧ c ≤ 0x7A then c - 0x20 else c) :: foldName rest

/-- One digit of Go `strconv.ParseUint` in base ten. -/
def digitStep (n : Nat) (c : Nat) : Option Nat :=
  if isDigit c then some (n * 10 + (c - 0x30)) else none

/-- Go `strconv.ParseUint(_, 10, 64)` without its range check, which `ParseInt`
makes. -/
def ParseUint (ds : Bytes) : Option Nat :=
  match ds with
  | [] => none
  | _ :: _ => ds.foldlM digitStep 0

/-- Go `strconv.ParseInt(_, 10, 64)`: an optional sign and decimal digits, within
the range of a 64-bit integer. -/
def ParseInt (lit : Bytes) : Option Int :=
  match lit with
  | [] => none
  | c :: rest =>
    if c = 0x2B then
      (ParseUint rest).bind fun n => if n < 2 ^ 63 then some (n : Int) else none
    else if c = 0x2D then
      (ParseUint rest).bind fun n => if n ≤ 2 ^ 63 then some (-(n : Int)) else none
    else (ParseUint lit).bind fun n => if n < 2 ^ 63 then some (n : Int) else none

/-- The decoder of `encoding/json` at one member of an object read into a
`WhoisLookupParams`: the field is chosen by the folded key, `null` leaves it
as it is, a value of another JSON type is an error, an unknown key is skipped. -/
def setField (v : WhoisLookupParams) (key : Bytes) (j : JVal) : Option WhoisLookupParams :=
  if foldName key = foldName (ascii "query") then
    match j with
    | .string s => some { v with Query := s }
    | .null => some v
    | _ => none
  else if foldName key = foldName (ascii "server") then
    match j with
    | .string s => some { v with Server := s }
    | .null => some v
    | _ => none
  else if foldName key = foldName (ascii "timeout") then
    match j with
    | .number lit => (ParseInt lit).map fun n => { v with Timeout := n }
    | .null => some v
    | _ => none
  else if foldName key = foldName (ascii "disable_referral") then
    match j with
    | .bool b => some { v with DisableReferral := b }
    | .null => some v
    | _ => none
  else if foldName key = foldName (ascii "parse_json") then
    match j with
    | .bool b => some { v with ParseJSON := b }
    | .null => some v
    | _ => none
  else some v

/-- The decoder of `encoding/json` at a value read into a `WhoisLookupParams`. -/
def decodeInto (j : JVal) (v : WhoisLookupParams) : Option WhoisLookupParams :=
  match j with
  | .object kvs => kvs.foldlM (fun v kv => setField v kv.1 kv.2) v
  | .null => some v
  | _ => none

/-- Go `json.Unmarshal` into a `WhoisLookupParams` holding `v`: the input is one
JSON value, white space apart. -/
def Unmarshal (data : Bytes) (v : WhoisLookupParams) : Option WhoisLookupParams :=
  match parseValue (data.length + 1) 0 data with
  | none => none
  | some (j, rest) => if skipSpace rest = [] then decodeInto j v else none

/-- The zero value of `WhoisLookupParams`, as `var unmarshaled WhoisLookupParams`. -/
def zero : WhoisLookupParams := ⟨[], [], 0, false, false⟩

/-! ### The members of an encoded request -/

/-- One field of the encoded object: its key, the encoding of its value, and
the JSON value that encoding denotes. -/
structure Member where
  key : Bytes
  enc : Bytes
  val : JVal

/-- The bytes `"key":value` of a field. -/
def Member.field (m : Member) : Bytes :=
  0x22 :: (m.key ++ [0x22, 0x3A]) ++ m.enc

/-- The fields `Marshal` writes for a value, with the JSON value each is read
back as: a string is read back coerced to valid UTF-8. -/
def members (v : WhoisLookupParams) : List Member :=
  [⟨ascii "query", appendString v.Query, JVal.string (coerceUTF8 v.Query)⟩]
    ++ (if v.Server.length = 0 then []
        else [⟨ascii "server", appendString v.Server, JVal.string (coerceUTF8 v.Server)⟩])
    ++ (if v.Timeout = 0 then []
        else [⟨ascii "timeout", AppendInt v.Timeout, JVal.number (AppendInt v.Timeout)⟩])
    ++ (if v.DisableReferral = false then []
        else [⟨ascii "disable_referral", ascii "true", JVal.bool true⟩])
    ++ (if v.ParseJSON = false then []
        else [⟨ascii "parse_json", ascii "true", JVal.bool true⟩])

end GoJSON

/-! ## Lemmas on traces -/

theorem filter_isWhois_dials {Info : Type} (ds : List Dial) :
    (ds.map (Event.dial : Dial → Event Info)).filter Event.isWhois = [] := by
  induction ds with
  | nil => rfl
  | cons d ds ih => simp [List.filter, Event.isWhois]

theorem isParse_dials {Info : Type} (ds : List Dial) :
    ∀ ev ∈ ds.map (Event.dial : Dial → Event Info),
      ev.isParse = false ∧ ev.isMarshal = false := by
  intro ev hev
  obtain ⟨d, -, rfl⟩ := List.mem_map.mp hev
  exact ⟨rfl, rfl⟩

/-! ## The tool-call handler: failures of the resolution -/

theorem handleWhoisLookup_failed {Info : Type} (env : Env Info) (args : WhoisLookupParams)
    (e : GoError) (hres : (resolution env args).err = some e) :
    handleWhoisLookup env args =
      { result := none, err := some (Errorf "whois query failed: " e),
        trace := Event.whois (configureClient args) args.Query (serverArgs args)
          :: (resolution env args).dials.map Event.dial } := by
  unfold handleWhoisLookup
  simp only [hres]

/-- C1: when the resolution returns an error `e`, the handler returns a nil
result and an error whose message is `whois query failed: ` followed by the
message of `e` and which wraps `e`; no event of the trace is a call of the
parser or of a JSON renderer. -/
theorem handleWhoisLookup_resolution_error {Info : Type} (env : Env Info)
    (args : WhoisLookupParams) (e : GoError)
    (hres : (resolution env args).err = some e) :
    (handleWhoisLookup env args).result = none ∧
    (∃ err, (handleWhoisLookup env args).err = some err ∧
      err.Error = "whois query failed: " ++ e.Error ∧ err.Unwrap = some e) ∧
    (∀ ev ∈ (handleWhoisLookup env args).trace,
      ev.isParse = false ∧ ev.isMarshal = false) := by
  rw [handleWhoisLookup_failed env args e hres]
  refine ⟨rfl, ⟨_, rfl, rfl, rfl⟩, ?_⟩
  intro ev hev
  rcases List.mem_cons.mp hev with h | h
  · subst h; exact ⟨rfl, rfl⟩
  · exact isParse_dials _ ev h

/-- C1, at a request whose resolution fails with `connection refused`. -/
theorem handleWhoisLookup_resolution_error_witness :
    (resolution (constEnv ⟨"", some (.plain "connection refused"), []⟩
        ("", none) ("", none)) exampleArgs).err = some (.plain "connection refused") ∧
    ((handleWhoisLookup (constEnv ⟨"", some (.plain "connection refused"), []⟩
        ("", none) ("", none)) exampleArgs).result = none ∧
    (∃ err, (handleWhoisLookup (constEnv ⟨"", some (.plain "connection refused"), []⟩
        ("", none) ("", none)) exampleArgs).err = some err ∧
      err.Error = "whois query failed: " ++ (GoError.plain "connection refused").Error ∧
      err.Unwrap = some (.plain "connection refused")) ∧
    (∀ ev ∈ (handleWhoisLookup (constEnv ⟨"", some (.plain "connection refused"), []⟩
        ("", none) ("", none)) exampleArgs).trace,
      ev.isParse = false ∧ ev.isMarshal = false)) :=
  ⟨rfl, handleWhoisLookup_resolution_error _ _ _ rfl⟩

/-! ## The tool-call handler: one equation for each path after a successful resolution -/

theorem handleWhoisLookup_raw {Info : Type} (env : Env Info) (args : WhoisLookupParams)
    (hres : (resolution env args).err = none) (hraw : args.ParseJSON = false) :
    handleWhoisLookup env args =
      { result := some { Content := [Content.TextContent (resolution env args).result] },
        err := none,
        trace := Event.whois (configureClient args) args.Query (serverArgs args)
          :: (resolution env args).dials.map Event.dial } := by
  unfold handleWhoisLookup
  simp only [hres, hraw]
  rfl

theorem handleWhoisLookup_parse_failed {Info : Type} (env : Env Info)
    (args : WhoisLookupParams) (p : GoError)
    (hres : (resolution env args).err = none) (hjson : args.ParseJSON = true)
    (hparse : (env.Parse (resolution env args).result).2 = some p) :
    handleWhoisLookup env args =
      { result := some { Content := [Content.TextContent
          ("Failed to parse whois data as JSON: " ++ p.Error
            ++ "\n\nRaw whois data:\n" ++ (resolution env args).result)] },
        err := none,
        trace := (Event.whois (configureClient args) args.Query (serverArgs args)
          :: (resolution env args).dials.map Event.dial)
          ++ [Event.parse (resolution env args).result] } := by
  unfold handleWhoisLookup
  simp only [hres, hjson, hparse]
  rfl

theorem handleWhoisLookup_marshal_failed {Info : Type} (env : Env Info)
    (args : WhoisLookupParams) (m : GoError)
    (hres : (resolution env args).err = none) (hjson : args.ParseJSON = true)
    (hparse : (env.Parse (resolution env args).result).2 = none)
    (hmarshal :
      (env.MarshalIndent (env.Parse (resolution env args).result).1 "" "  ").2 = some m) :
    handleWhoisLookup env args =
      { result := none,
        err := some (Errorf "failed to marshal parsed data: " m),
        trace := (Event.whois (configureClient args) args.Query (serverArgs args)
          :: (resolution env args).dials.map Event.dial)
          ++ [Event.parse (resolution env args).result,
              Event.marshalIndent (env.Parse (resolution env args).result).1 "" "  "] } := by
  unfold handleWhoisLookup
  simp only [hres, hjson, hparse, hmarshal]
  rfl

theorem handleWhoisLookup_rendered {Info : Type} (env : Env Info)
    (args : WhoisLookupParams)
    (hres : (resolution env args).err = none) (hjson : args.ParseJSON = true)
    (hparse : (env.Parse (resolution env args).result).2 = none)
    (hmarshal :
      (env.MarshalIndent (env.Parse (resolution env args).result).1 "" "  ").2 = none) :
    handleWhoisLookup env args =
      { result := some { Content := [Content.TextContent
          (env.MarshalIndent (env.Parse (resolution env args).result).1 "" "  ").1] },
        err := none,
        trace := (Event.whois (configureClient args) args.Query (serverArgs args)
          :: (resolution env args).dials.map Event.dial)
          ++ [Event.parse (resolution env args).result,
              Event.marshalIndent (env.Parse (resolution env args).result).1 "" "  "] } := by
  unfold handleWhoisLookup
  simp only [hres, hjson, hparse, hmarshal]
  rfl

/-! ## The tool-call handler: parse failures -/

/-- C2: with `parse_json` set, a resolution that succeeds with raw text `r` and
a parse of `r` that fails with `p`, the handler returns a nil error and a
result with exactly one content item, a text item whose text is
`Failed to parse whois data as JSON: `, the message of `p`, a blank line,
`Raw whois data:`, a newline and `r`; so the text ends in the whole of `r`. -/
theorem handleWhoisLookup_parse_failure_note {Info : Type} (env : Env Info)
    (args : WhoisLookupParams) (r : String) (p : GoError)
    (hjson : args.ParseJSON = true)
    (hres : (resolution env args).err = none)
    (hraw : (resolution env args).result = r)
    (hparse : (env.Parse r).2 = some p) :
    (handleWhoisLookup env args).err = none ∧
    (handleWhoisLookup env args).result =
      some { Content := [Content.TextContent
        ("Failed to parse whois data as JSON: " ++ p.Error
          ++ "\n\nRaw whois data:\n" ++ r)] } ∧
    (∃ note text, (handleWhoisLookup env args).result
        = some { Content := [Content.TextContent text] } ∧ text = note ++ r) := by
  subst hraw
  rw [handleWhoisLookup_parse_failed env args p hres hjson hparse]
  exact ⟨rfl, rfl, _, _, rfl, rfl⟩

/-- C2, at a request with `parse_json` set whose raw text `no data` does not
parse. -/
theorem handleWhoisLookup_parse_failure_note_witness :
    ({ exampleArgs with ParseJSON := true } : WhoisLookupParams).ParseJSON = true ∧
    (handleWhoisLookup (constEnv ⟨"no data", none, []⟩
        ("", some (.plain "domain is not found")) ("", none))
        { exampleArgs with ParseJSON := true }).result =
      some { Content := [Content.TextContent
        ("Failed to parse whois data as JSON: domain is not found"
          ++ "\n\nRaw whois data:\n" ++ "no data")] } :=
  ⟨rfl, (handleWhoisLookup_parse_failure_note
    (constEnv ⟨"no data", none, []⟩ ("", some (.plain "domain is not found")) ("", none))
    { exampleArgs with ParseJSON := true } "no data" (.plain "domain is not found")
    rfl rfl rfl rfl).2.1⟩

/-! ## The tool-call handler: when the call fails -/

/-- C3, as stated, fails: with `parse_json` set, a resolution that succeeds, a
parse that succeeds and a JSON rendering that fails, the handler returns a
non-nil error although the resolution returned none. -/
theorem handleWhoisLookup_error_after_successful_resolution :
    (resolution (constEnv ⟨"Domain Name: EXAMPLE.COM", none, []⟩ ("example.com", none)
        ("", some (.plain "json: unsupported value")))
        { exampleArgs with ParseJSON := true }).err = none ∧
    (handleWhoisLookup (constEnv ⟨"Domain Name: EXAMPLE.COM", none, []⟩
        ("example.com", none) ("", some (.plain "json: unsupported value")))
        { exampleArgs with ParseJSON := true }).err =
      some (.wrapped "failed to marshal parsed data: json: unsupported value"
        (.plain "json: unsupported value")) := by
  constructor <;> rfl

/-- C3, amended: the handler returns a non-nil error exactly when the resolution
returned an error, or when the resolution succeeded, `parse_json` is set, the
parse succeeded and the JSON rendering of the record failed.  So a successful
resolution is followed by a successful call whenever `parse_json` is unset and
whenever the parse fails, and a failed rendering is the one other failure. -/
theorem handleWhoisLookup_error_iff {Info : Type} (env : Env Info)
    (args : WhoisLookupParams) :
    (handleWhoisLookup env args).err ≠ none ↔
      ((resolution env args).err ≠ none ∨
        ((resolution env args).err = none ∧ args.ParseJSON = true ∧
          (env.Parse (resolution env args).result).2 = none ∧
          (env.MarshalIndent (env.Parse (resolution env args).result).1 "" "  ").2
            ≠ none)) := by
  cases hres : (resolution env args).err with
  | some e =>
    rw [handleWhoisLookup_failed env args e hres]
    simp
  | none =>
    cases hjson : args.ParseJSON with
    | false =>
      rw [handleWhoisLookup_raw env args hres hjson]
      simp
    | true =>
      cases hparse : (env.Parse (resolution env args).result).2 with
      | some p =>
        rw [handleWhoisLookup_parse_failed env args p hres hjson hparse]
        simp
      | none =>
        cases hm : (env.MarshalIndent (env.Parse (resolution env args).result).1 "" "  ").2 with
        | some m =>
          rw [handleWhoisLookup_marshal_failed env args m hres hjson hparse hm]
          simp
        | none =>
          rw [handleWhoisLookup_rendered env args hres hjson hparse hm]
          simp

/-! ## The tool-call handler: the content of a successful result -/

/-- C4: when the resolution succeeds with raw text `r`, the handler returns no
error and a result with exactly one content item, a text item: its text is `r`
itself when `parse_json` is unset (also when `r` is empty), and it is the
output of `json.MarshalIndent` with an empty line lead and an indent of two
spaces on the parsed record when `parse_json` is set and both the parse and the
rendering succeed. -/
theorem handleWhoisLookup_success_content {Info : Type} (env : Env Info)
    (args : WhoisLookupParams) (r : String)
    (hres : (resolution env args).err = none)
    (hraw : (resolution env args).result = r) :
    (args.ParseJSON = false →
      (handleWhoisLookup env args).err = none ∧
      (handleWhoisLookup env args).result =
        some { Content := [Content.TextContent r] }) ∧
    (args.ParseJSON = true → (env.Parse r).2 = none →
      (env.MarshalIndent (env.Parse r).1 "" "  ").2 = none →
      (handleWhoisLookup env args).err = none ∧
      (handleWhoisLookup env args).result =
        some { Content := [Content.TextContent
          (env.MarshalIndent (env.Parse r).1 "" "  ").1] }) := by
  subst hraw
  refine ⟨fun hjson => ?_, fun hjson hparse hm => ?_⟩
  · rw [handleWhoisLookup_raw env args hres hjson]
    exact ⟨rfl, rfl⟩
  · rw [handleWhoisLookup_rendered env args hres hjson hparse hm]
    exact ⟨rfl, rfl⟩

/-- C4, at a request for raw text whose resolution succeeds with the empty
text, and at a request for JSON whose record renders. -/
theorem handleWhoisLookup_success_content_witness :
    ((resolution (constEnv ⟨"", none, []⟩ ("", none) ("", none)) exampleArgs).err = none ∧
      (handleWhoisLookup (constEnv ⟨"", none, []⟩ ("", none) ("", none))
        exampleArgs).err = none ∧
      (handleWhoisLookup (constEnv ⟨"", none, []⟩ ("", none) ("", none))
        exampleArgs).result = some { Content := [Content.TextContent ""] }) ∧
    (handleWhoisLookup (constEnv ⟨"Domain Name: EXAMPLE.COM", none, []⟩
        ("example.com", none) ("[\n  1\n]", none))
        { exampleArgs with ParseJSON := true }).result =
      some { Content := [Content.TextContent "[\n  1\n]"] } :=
  ⟨⟨rfl, (handleWhoisLookup_success_content
      (constEnv ⟨"", none, []⟩ ("", none) ("", none)) exampleArgs "" rfl rfl).1 rfl⟩,
    ((handleWhoisLookup_success_content
      (constEnv ⟨"Domain Name: EXAMPLE.COM", none, []⟩ ("example.com", none)
        ("[\n  1\n]", none))
      { exampleArgs with ParseJSON := true } "Domain Name: EXAMPLE.COM" rfl rfl).2
      rfl rfl rfl).2⟩

/-! ## The tool-call handler over the engine of the specification: empty queries -/

theorem specWhois_empty (E : Engine) (c : Client) (servers : List String) :
    specWhois E c "" servers = { result := "", err := some InvalidSubject, dials := [] } := by
  simp [specWhois]

/-- C5: over the engine of the specification, a request with an empty query,
whatever its server, makes the handler return a nil result and a non-nil error
(the wrapped `InvalidSubject`), and no event of the trace is a connection
attempt. -/
theorem handleWhoisLookup_empty_query {Info : Type} (env : Env Info) (E : Engine)
    (args : WhoisLookupParams) (hq : args.Query = "") :
    (handleWhoisLookup (withEngine env E) args).err ≠ none ∧
    (handleWhoisLookup (withEngine env E) args).err
      = some (Errorf "whois query failed: " InvalidSubject) ∧
    (handleWhoisLookup (withEngine env E) args).result = none ∧
    (∀ ev ∈ (handleWhoisLookup (withEngine env E) args).trace, ev.isDial = false) := by
  have hres : (resolution (withEngine env E) args).err = some InvalidSubject := by
    simp [resolution, withEngine, hq, specWhois_empty]
  have hdials : (resolution (withEngine env E) args).dials = [] := by
    simp [resolution, withEngine, hq, specWhois_empty]
  rw [handleWhoisLookup_failed _ args _ hres, hdials]
  refine ⟨by simp, rfl, rfl, ?_⟩
  intro ev hev
  simp only [List.map_nil, List.mem_singleton] at hev
  subst hev
  rfl

/-- C5, at the empty query sent to an explicit server, over an engine whose
registry would answer. -/
theorem handleWhoisLookup_empty_query_witness :
    ({ exampleArgs with Query := "", Server := "a.example" } : WhoisLookupParams).Query = "" ∧
    (handleWhoisLookup (withEngine (constEnv ⟨"", none, []⟩ ("", none) ("", none))
        referringEngine) { exampleArgs with Query := "", Server := "a.example" }).err ≠ none ∧
    (∀ ev ∈ (handleWhoisLookup (withEngine (constEnv ⟨"", none, []⟩ ("", none) ("", none))
        referringEngine) { exampleArgs with Query := "", Server := "a.example" }).trace,
      ev.isDial = false) :=
  ⟨rfl,
    (handleWhoisLookup_empty_query (constEnv ⟨"", none, []⟩ ("", none) ("", none))
      referringEngine { exampleArgs with Query := "", Server := "a.example" } rfl).1,
    (handleWhoisLookup_empty_query (constEnv ⟨"", none, []⟩ ("", none) ("", none))
      referringEngine { exampleArgs with Query := "", Server := "a.example" } rfl).2.2.2⟩

/-! ## The tool-call handler: the timeout of the client -/

theorem wrapInt64_of_range (x : Int) (hlo : -(2 ^ 63) ≤ x) (hhi : x < 2 ^ 63) :
    wrapInt64 x = x := by
  unfold wrapInt64
  rw [Int.emod_eq_of_lt (by omega) (by omega)]
  omega

theorem configureClient_timeout_default (args : WhoisLookupParams) (h : args.Timeout ≤ 0) :
    (configureClient args).timeout = 30 * Second := by
  have h0 : ¬ args.Timeout > 0 := by omega
  unfold configureClient
  simp only [h0, if_false]
  split <;> rfl

theorem configureClient_timeout_seconds (args : WhoisLookupParams) (h : 0 < args.Timeout)
    (hmax : args.Timeout ≤ 9223372036) :
    (configureClient args).timeout = args.Timeout * Second := by
  have h0 : args.Timeout > 0 := h
  have hw : wrapInt64 (args.Timeout * 1000000000) = args.Timeout * 1000000000 :=
    wrapInt64_of_range _ (by omega) (by omega)
  unfold configureClient
  simp only [h0, if_true]
  split <;> simp [Client.SetTimeout, Client.SetDisableReferral, Duration.mul, Second, hw]

theorem configureClient_overrides_iff (args : WhoisLookupParams) :
    (configureClient args).timeout =
      if args.Timeout > 0 then Duration.mul args.Timeout Second else defaultTimeout := by
  unfold configureClient
  by_cases h0 : args.Timeout > 0 <;> simp only [h0, if_true, if_false] <;> split <;> rfl

/-- C6 at a failing request: with `timeout` 18446744074 (a positive Go `int` of
64 bits) the product with `time.Second` wraps around, and the client that
performs the resolution carries a timeout of 290448384 nanoseconds, which is
neither 18446744074 seconds nor the default. -/
theorem configureClient_timeout_wraps :
    (0 : Int) < 18446744074 ∧ (18446744074 : Int) < 2 ^ 63 ∧
    (configureClient { exampleArgs with Timeout := 18446744074 }).timeout = 290448384 ∧
    effectiveTimeout (configureClient { exampleArgs with Timeout := 18446744074 }).timeout
      = 290448384 ∧
    (290448384 : Int) ≠ 18446744074 * Second ∧
    (handleWhoisLookup (constEnv ⟨"", none, []⟩ ("", none) ("", none))
        { exampleArgs with Timeout := 18446744074 }).trace
      = [Event.whois { timeout := 290448384, disableReferral := false, dialer := none }
          "example.com" []] := by
  refine ⟨by decide, by decide, by decide, by decide, by decide, by decide⟩

/-! ## The tool-call handler: the call of the resolution -/

theorem handleWhoisLookup_trace_head {Info : Type} (env : Env Info)
    (args : WhoisLookupParams) :
    ∃ rest : List (Event Info), (∀ ev ∈ rest, ev.isWhois = false) ∧
      (handleWhoisLookup env args).trace =
        Event.whois (configureClient args) args.Query (serverArgs args)
          :: ((resolution env args).dials.map Event.dial ++ rest) := by
  cases hres : (resolution env args).err with
  | some e =>
    refine ⟨[], by simp, ?_⟩
    rw [handleWhoisLookup_failed env args e hres]
    simp
  | none =>
    cases hjson : args.ParseJSON with
    | false =>
      refine ⟨[], by simp, ?_⟩
      rw [handleWhoisLookup_raw env args hres hjson]
      simp
    | true =>
      cases hparse : (env.Parse (resolution env args).result).2 with
      | some p =>
        refine ⟨[Event.parse (resolution env args).result], by simp [Event.isWhois], ?_⟩
        rw [handleWhoisLookup_parse_failed env args p hres hjson hparse]
        simp
      | none =>
        refine ⟨[Event.parse (resolution env args).result,
          Event.marshalIndent (env.Parse (resolution env args).result).1 "" "  "],
          by simp [Event.isWhois], ?_⟩
        cases hm : (env.MarshalIndent (env.Parse (resolution env args).result).1 "" "  ").2 with
        | some m =>
          rw [handleWhoisLookup_marshal_failed env args m hres hjson hparse hm]
          simp
        | none =>
          rw [handleWhoisLookup_rendered env args hres hjson hparse hm]
          simp

theorem handleWhoisLookup_whois_calls {Info : Type} (env : Env Info)
    (args : WhoisLookupParams) :
    (handleWhoisLookup env args).trace.filter Event.isWhois =
      [Event.whois (configureClient args) args.Query (serverArgs args)] := by
  obtain ⟨rest, hrest, htrace⟩ := handleWhoisLookup_trace_head env args
  have hnone : rest.filter Event.isWhois = [] := by
    apply List.filter_eq_nil_iff.mpr
    intro ev hev
    simp [hrest ev hev]
  rw [htrace]
  simp [List.filter_cons, Event.isWhois, filter_isWhois_dials, hnone]

theorem filter_isDial_dials {Info : Type} (ds : List Dial) :
    (ds.map (Event.dial : Dial → Event Info)).filter Event.isDial
      = ds.map (Event.dial : Dial → Event Info) := by
  induction ds with
  | nil => rfl
  | cons d ds ih => simp [List.filter, Event.isDial]

theorem handleWhoisLookup_dials {Info : Type} (env : Env Info)
    (args : WhoisLookupParams) :
    (handleWhoisLookup env args).trace.filter Event.isDial
      = (resolution env args).dials.map Event.dial := by
  cases hres : (resolution env args).err with
  | some e =>
    rw [handleWhoisLookup_failed env args e hres]
    simp [List.filter_cons, Event.isDial, filter_isDial_dials]
  | none =>
    cases hjson : args.ParseJSON with
    | false =>
      rw [handleWhoisLookup_raw env args hres hjson]
      simp [List.filter_cons, Event.isDial, filter_isDial_dials]
    | true =>
      cases hparse : (env.Parse (resolution env args).result).2 with
      | some p =>
        rw [handleWhoisLookup_parse_failed env args p hres hjson hparse]
        simp [List.filter_cons, Event.isDial, filter_isDial_dials]
      | none =>
        cases hm : (env.MarshalIndent (env.Parse (resolution env args).result).1 "" "  ").2 with
        | some m =>
          rw [handleWhoisLookup_marshal_failed env args m hres hjson hparse hm]
          simp [List.filter_cons, Event.isDial, filter_isDial_dials]
        | none =>
          rw [handleWhoisLookup_rendered env args hres hjson hparse hm]
          simp [List.filter_cons, Event.isDial, filter_isDial_dials]

theorem serverArgs_eq (args : WhoisLookupParams) :
    serverArgs args = (if args.Server = "" then [] else [args.Server]) := by
  unfold serverArgs
  by_cases h : args.Server = "" <;> simp [h]

/-- C7: the resolution the handler performs is the one call
`env.Whois c args.Query servers` on the client `c` it configured, where the
query is that of the request unchanged and `servers` is the one server of the
request when that is non-empty and no server at all when it is empty.  The
trace of the handler holds exactly one call of the resolution, with these
arguments; the connection attempts of the handler are those of that call, once;
the error of that call is the error the handler wraps and, for raw output, the
text of that call is the text the handler returns; and the handler depends on
the resolution through that call alone: over any other environment with the
same parser and renderer whose resolution answers that one call alike, the
handler does the same. -/
theorem handleWhoisLookup_calls_resolution_once {Info : Type} (env : Env Info)
    (args : WhoisLookupParams) :
    resolution env args
      = env.Whois (configureClient args) args.Query
          (if args.Server = "" then [] else [args.Server]) ∧
    (handleWhoisLookup env args).trace.filter Event.isWhois
      = [Event.whois (configureClient args) args.Query
          (if args.Server = "" then [] else [args.Server])] ∧
    ((handleWhoisLookup env args).trace.filter Event.isWhois).length = 1 ∧
    (handleWhoisLookup env args).trace.filter Event.isDial
      = (env.Whois (configureClient args) args.Query
          (if args.Server = "" then [] else [args.Server])).dials.map Event.dial ∧
    (∀ e : GoError,
      (env.Whois (configureClient args) args.Query
          (if args.Server = "" then [] else [args.Server])).err = some e →
      (handleWhoisLookup env args).err = some (Errorf "whois query failed: " e)) ∧
    ((env.Whois (configureClient args) args.Query
          (if args.Server = "" then [] else [args.Server])).err = none →
      args.ParseJSON = false →
      (handleWhoisLookup env args).result
        = some { Content := [Content.TextContent
            (env.Whois (configureClient args) args.Query
              (if args.Server = "" then [] else [args.Server])).result] }) ∧
    (∀ env2 : Env Info, env2.Parse = env.Parse → env2.MarshalIndent = env.MarshalIndent →
      env2.Whois (configureClient args) args.Query
          (if args.Server = "" then [] else [args.Server])
        = env.Whois (configureClient args) args.Query
          (if args.Server = "" then [] else [args.Server]) →
      handleWhoisLookup env2 args = handleWhoisLookup env args) := by
  have hcall : resolution env args
      = env.Whois (configureClient args) args.Query
          (if args.Server = "" then [] else [args.Server]) := by
    unfold resolution
    rw [serverArgs_eq]
  refine ⟨hcall, ?_, ?_, ?_, ?_, ?_, ?_⟩
  · rw [← serverArgs_eq]
    exact handleWhoisLookup_whois_calls env args
  · rw [handleWhoisLookup_whois_calls env args]
    rfl
  · rw [← hcall]
    exact handleWhoisLookup_dials env args
  · intro e he
    rw [← hcall] at he
    rw [handleWhoisLookup_failed env args e he]
  · intro he hraw
    rw [← hcall] at he ⊢
    rw [handleWhoisLookup_raw env args he hraw]
  · intro env2 hP hM hW
    have hcall2 : resolution env2 args = resolution env args := by
      rw [hcall, ← hW]
      unfold resolution
      rw [serverArgs_eq]
    unfold handleWhoisLookup
    rw [hcall2, hP, hM]

/-- C7, at a request for `example.com` on the server `whois.iana.org` and at the
same request without a server, over the environment whose resolution answers
with its own arguments. -/
theorem handleWhoisLookup_calls_resolution_once_witness :
    (handleWhoisLookup echoEnv { exampleArgs with Server := "whois.iana.org" }).result
      = some { Content := [Content.TextContent "example.com@whois.iana.org"] } ∧
    (handleWhoisLookup echoEnv exampleArgs).result
      = some { Content := [Content.TextContent "example.com"] } ∧
    (handleWhoisLookup echoEnv { exampleArgs with Server := "whois.iana.org" }).trace.filter
        Event.isDial
      = [Event.dial ⟨"whois.iana.org", "example.com", defaultTimeout⟩] :=
  ⟨(handleWhoisLookup_calls_resolution_once echoEnv
      { exampleArgs with Server := "whois.iana.org" }).2.2.2.2.2.1 rfl rfl,
    (handleWhoisLookup_calls_resolution_once echoEnv exampleArgs).2.2.2.2.2.1 rfl rfl,
    (handleWhoisLookup_calls_resolution_once echoEnv
      { exampleArgs with Server := "whois.iana.org" }).2.2.2.1⟩

/-! ## The tool-call handler: the referral policy of the client -/

theorem configureClient_disableReferral (args : WhoisLookupParams) :
    (configureClient args).disableReferral = args.DisableReferral := by
  unfold configureClient
  cases hd : args.DisableReferral <;> simp only [if_true, if_false, Bool.false_eq_true]
  · split <;> rfl
  · rfl

/-- C8: the client of the one call of the resolution has referral-following
disabled exactly when `disable_referral` is set in the request; a new client
follows referrals, so an unset flag leaves referrals enabled; and changing the
timeout, the server or `parse_json` of the request does not change the
setting. -/
theorem handleWhoisLookup_referral_policy {Info : Type} (env : Env Info)
    (args : WhoisLookupParams) :
    (∃ (c : Client) (servers : List String),
      (handleWhoisLookup env args).trace.filter Event.isWhois
        = [Event.whois c args.Query servers] ∧
      (c.disableReferral = true ↔ args.DisableReferral = true)) ∧
    NewClient.disableReferral = false ∧
    (∀ (t : Int) (s : String) (j : Bool),
      (configureClient { args with Timeout := t, Server := s, ParseJSON := j }).disableReferral
        = (configureClient args).disableReferral) := by
  refine ⟨⟨configureClient args, serverArgs args, handleWhoisLookup_whois_calls env args, ?_⟩,
    rfl, ?_⟩
  · rw [configureClient_disableReferral]
  · intro t s j
    rw [configureClient_disableReferral, configureClient_disableReferral]

/-! ## The command-line front end: output and exit status -/

/-- C9, as stated, fails: with `-j`, a resolution that succeeds and a parse that
succeeds, a failure of `xjson.PrettyDumps` makes `main` print the message of
that failure and exit with status 1, although neither the resolution nor the
parse failed. -/
theorem main_exit_nonzero_without_resolution_or_parse_failure :
    ((constEnv ⟨"Domain Name: EXAMPLE.COM", none, []⟩ ("example.com", none)
        ("", some (.plain "json: unsupported value"))).Whois
        (cliClient none) "example.com" [""]).err = none ∧
    ((constEnv ⟨"Domain Name: EXAMPLE.COM", none, []⟩ ("example.com", none)
        ("", some (.plain "json: unsupported value"))).Parse
        "Domain Name: EXAMPLE.COM").2 = none ∧
    (main (constEnv ⟨"Domain Name: EXAMPLE.COM", none, []⟩ ("example.com", none)
        ("", some (.plain "json: unsupported value")))
        none "whois" "" true ["example.com"]).code = 1 ∧
    (main (constEnv ⟨"Domain Name: EXAMPLE.COM", none, []⟩ ("example.com", none)
        ("", some (.plain "json: unsupported value")))
        none "whois" "" true ["example.com"]).stdout = "json: unsupported value\n" := by
  refine ⟨rfl, rfl, rfl, rfl⟩

/-- C9, amended: for an invocation with a positional subject, `main` prints the
message of the error and a newline to standard output and exits with status 1
when the resolution fails, or with `-j` when the parse fails or when the
rendering of the record fails; in every other case it exits with status 0
after printing the raw text (without `-j`) or the rendered record (with `-j`)
and a newline. -/
theorem main_exit_status {Info : Type} (env : Env Info) (dialer : Option ContextDialer)
    (argv0 server subject : String) (outJSON : Bool) (rest : List String) :
    (∀ e, (env.Whois (cliClient dialer) subject [server]).err = some e →
      (main env dialer argv0 server outJSON (subject :: rest)).code = 1 ∧
      (main env dialer argv0 server outJSON (subject :: rest)).stdout = e.Error ++ "\n") ∧
    ((env.Whois (cliClient dialer) subject [server]).err = none →
      (outJSON = false →
        (main env dialer argv0 server outJSON (subject :: rest)).code = 0 ∧
        (main env dialer argv0 server outJSON (subject :: rest)).stdout
          = (env.Whois (cliClient dialer) subject [server]).result ++ "\n") ∧
      (outJSON = true →
        (∀ p, (env.Parse (env.Whois (cliClient dialer) subject [server]).result).2 = some p →
          (main env dialer argv0 server outJSON (subject :: rest)).code = 1 ∧
          (main env dialer argv0 server outJSON (subject :: rest)).stdout
            = p.Error ++ "\n") ∧
        ((env.Parse (env.Whois (cliClient dialer) subject [server]).result).2 = none →
          (∀ d, (env.PrettyDumps
              (env.Parse (env.Whois (cliClient dialer) subject [server]).result).1).2
                = some d →
            (main env dialer argv0 server outJSON (subject :: rest)).code = 1 ∧
            (main env dialer argv0 server outJSON (subject :: rest)).stdout
              = d.Error ++ "\n") ∧
          ((env.PrettyDumps
              (env.Parse (env.Whois (cliClient dialer) subject [server]).result).1).2
                = none →
            (main env dialer argv0 server outJSON (subject :: rest)).code = 0 ∧
            (main env dialer argv0 server outJSON (subject :: rest)).stdout
              = (env.PrettyDumps
                  (env.Parse (env.Whois (cliClient dialer) subject [server]).result).1).1
                ++ "\n")))) := by
  refine ⟨fun e he => ?_, fun hres => ⟨fun hj => ?_, fun hj => ⟨fun p hp => ?_, fun hp =>
    ⟨fun d hd => ?_, fun hd => ?_⟩⟩⟩⟩
  · constructor <;> simp [main, Println, he]
  · constructor <;> simp [main, Println, hres, hj]
  · constructor <;> simp [main, Println, hres, hj, hp]
  · constructor <;> simp [main, Println, hres, hj, hp, hd]
  · constructor <;> simp [main, Println, hres, hj, hp, hd]

/-! ## The engine of the specification: a referral that cannot be followed -/

theorem specWhois_referral_failed (E : Engine) (c : Client) (subject : String)
    (servers : List String) (a b first : String) (e : GoError)
    (hq : subject ≠ "")
    (hsel : selectServer E subject servers = a)
    (hfirst : E.transport a subject (effectiveTimeout c.timeout) = .ok first)
    (href : E.referral first = some b) (hb : b ≠ "") (hab : b ≠ a)
    (hfollow : c.disableReferral = false)
    (hsecond : E.transport b subject (effectiveTimeout c.timeout) = .error e) :
    specWhois E c subject servers =
      { result := first, err := none,
        dials := [⟨a, subject, effectiveTimeout c.timeout⟩,
                  ⟨b, subject, effectiveTimeout c.timeout⟩] } := by
  unfold specWhois
  simp only [hq, if_false, hsel, hfirst, href, hfollow, hb, hab, hsecond, ne_eq,
    not_false_eq_true, and_self, if_true]

/-- C10, as stated, fails: over the engine of the specification, with a first
response that refers to a server that cannot be reached, the resolution
succeeds with the first response, yet with `parse_json` set, a parse that
succeeds and a JSON rendering that fails, the handler returns a nil result and
a non-nil error. -/
theorem handleWhoisLookup_error_after_failed_referral :
    (resolution (withEngine (constEnv ⟨"", none, []⟩ ("example.com", none)
        ("", some (.plain "json: unsupported value"))) referringEngine)
        { exampleArgs with ParseJSON := true })
      = { result := "refer: b.example", err := none,
          dials := [⟨"a.example", "example.com", 30000000000⟩,
                    ⟨"b.example", "example.com", 30000000000⟩] } ∧
    (handleWhoisLookup (withEngine (constEnv ⟨"", none, []⟩ ("example.com", none)
        ("", some (.plain "json: unsupported value"))) referringEngine)
        { exampleArgs with ParseJSON := true }).result = none ∧
    (handleWhoisLookup (withEngine (constEnv ⟨"", none, []⟩ ("example.com", none)
        ("", some (.plain "json: unsupported value"))) referringEngine)
        { exampleArgs with ParseJSON := true }).err =
      some (.wrapped "failed to marshal parsed data: json: unsupported value"
        (.plain "json: unsupported value")) := by
  refine ⟨by decide, by decide, by decide⟩

/-- C10, amended: over the engine of the specification, when the first response
(from server `a`) names a different server `b`, referrals are followed and the
round-trip to `b` fails, the resolution succeeds and its text is exactly the
first response.  The handler then returns no error and a result whose one text
item is the first response itself when `parse_json` is unset, and the
parse-failure note that ends in the first response when `parse_json` is set and
the parse fails; when `parse_json` is set and the parse succeeds, the handler
returns the JSON rendering of the record parsed from the first response when
that rendering succeeds, and an error when it fails. -/
theorem handleWhoisLookup_failed_referral {Info : Type} (env : Env Info) (E : Engine)
    (args : WhoisLookupParams) (a b first : String) (e : GoError)
    (hq : args.Query ≠ "")
    (hsel : selectServer E args.Query (serverArgs args) = a)
    (hfirst : E.transport a args.Query (effectiveTimeout (configureClient args).timeout)
      = .ok first)
    (href : E.referral first = some b) (hb : b ≠ "") (hab : b ≠ a)
    (hfollow : args.DisableReferral = false)
    (hsecond : E.transport b args.Query (effectiveTimeout (configureClient args).timeout)
      = .error e) :
    (resolution (withEngine env E) args).err = none ∧
    (resolution (withEngine env E) args).result = first ∧
    (args.ParseJSON = false →
      (handleWhoisLookup (withEngine env E) args).err = none ∧
      (handleWhoisLookup (withEngine env E) args).result =
        some { Content := [Content.TextContent first] }) ∧
    (args.ParseJSON = true → ∀ p, (env.Parse first).2 = some p →
      (handleWhoisLookup (withEngine env E) args).err = none ∧
      (handleWhoisLookup (withEngine env E) args).result =
        some { Content := [Content.TextContent
          ("Failed to parse whois data as JSON: " ++ p.Error
            ++ "\n\nRaw whois data:\n" ++ first)] }) ∧
    (args.ParseJSON = true → (env.Parse first).2 = none →
      (env.MarshalIndent (env.Parse first).1 "" "  ").2 = none →
      (handleWhoisLookup (withEngine env E) args).err = none ∧
      (handleWhoisLookup (withEngine env E) args).result =
        some { Content := [Content.TextContent
          (env.MarshalIndent (env.Parse first).1 "" "  ").1] }) ∧
    (args.ParseJSON = true → (env.Parse first).2 = none →
      ∀ m, (env.MarshalIndent (env.Parse first).1 "" "  ").2 = some m →
      (handleWhoisLookup (withEngine env E) args).err
        = some (Errorf "failed to marshal parsed data: " m)) := by
  have hc : (configureClient args).disableReferral = false := by
    rw [configureClient_disableReferral, hfollow]
  have hw : resolution (withEngine env E) args =
      { result := first, err := none,
        dials := [⟨a, args.Query, effectiveTimeout (configureClient args).timeout⟩,
                  ⟨b, args.Query, effectiveTimeout (configureClient args).timeout⟩] } :=
    specWhois_referral_failed E (configureClient args) args.Query (serverArgs args)
      a b first e hq hsel hfirst href hb hab hc hsecond
  have hres : (resolution (withEngine env E) args).err = none := by rw [hw]
  have hraw : (resolution (withEngine env E) args).result = first := by rw [hw]
  refine ⟨hres, hraw, fun hj => ?_, fun hj p hp => ?_, fun hj hp hm => ?_,
    fun hj hp m hm => ?_⟩
  · rw [handleWhoisLookup_raw _ args hres hj, hraw]
    exact ⟨rfl, rfl⟩
  · have hp2 : ((withEngine env E).Parse (resolution (withEngine env E) args).result).2
        = some p := by rw [hraw]; exact hp
    rw [handleWhoisLookup_parse_failed _ args p hres hj hp2, hraw]
    exact ⟨rfl, rfl⟩
  · have hp2 : ((withEngine env E).Parse (resolution (withEngine env E) args).result).2
        = none := by rw [hraw]; exact hp
    have hm2 : ((withEngine env E).MarshalIndent
        ((withEngine env E).Parse (resolution (withEngine env E) args).result).1 "" "  ").2
        = none := by rw [hraw]; exact hm
    rw [handleWhoisLookup_rendered _ args hres hj hp2 hm2, hraw]
    exact ⟨rfl, rfl⟩
  · have hp2 : ((withEngine env E).Parse (resolution (withEngine env E) args).result).2
        = none := by rw [hraw]; exact hp
    have hm2 : ((withEngine env E).MarshalIndent
        ((withEngine env E).Parse (resolution (withEngine env E) args).result).1 "" "  ").2
        = some m := by rw [hraw]; exact hm
    rw [handleWhoisLookup_marshal_failed _ args m hres hj hp2 hm2]

/-- C10 amended, at a request for the raw text of `example.com` over an engine
whose registry `a.example` refers to `b.example`, which cannot be reached. -/
theorem handleWhoisLookup_failed_referral_witness :
    exampleArgs.Query ≠ "" ∧
    referringEngine.referral "refer: b.example" = some "b.example" ∧
    referringEngine.transport "b.example" "example.com"
        (effectiveTimeout (configureClient exampleArgs).timeout)
      = .error (.plain "connection refused") ∧
    (resolution (withEngine (constEnv ⟨"", none, []⟩ ("", none) ("", none))
        referringEngine) exampleArgs).err = none ∧
    (handleWhoisLookup (withEngine (constEnv ⟨"", none, []⟩ ("", none) ("", none))
        referringEngine) exampleArgs).err = none ∧
    (handleWhoisLookup (withEngine (constEnv ⟨"", none, []⟩ ("", none) ("", none))
        referringEngine) exampleArgs).result =
      some { Content := [Content.TextContent "refer: b.example"] } :=
  ⟨by decide, by decide, rfl,
    (handleWhoisLookup_failed_referral (constEnv ⟨"", none, []⟩ ("", none) ("", none))
      referringEngine exampleArgs "a.example" "b.example" "refer: b.example"
      (.plain "connection refused") (by decide) (by decide) rfl (by decide)
      (by decide) (by decide) rfl rfl).1,
    ((handleWhoisLookup_failed_referral (constEnv ⟨"", none, []⟩ ("", none) ("", none))
      referringEngine exampleArgs "a.example" "b.example" "refer: b.example"
      (.plain "connection refused") (by decide) (by decide) rfl (by decide)
      (by decide) (by decide) rfl rfl).2.2.1 rfl).1,
    ((handleWhoisLookup_failed_referral (constEnv ⟨"", none, []⟩ ("", none) ("", none))
      referringEngine exampleArgs "a.example" "b.example" "refer: b.example"
      (.plain "connection refused") (by decide) (by decide) rfl (by decide)
      (by decide) (by decide) rfl rfl).2.2.1 rfl).2⟩

/-! ## The JSON form of the request: marshalling and unmarshalling -/

namespace GoJSON

/-! ### UTF-8 -/

theorem decodeRune_shape (b : Nat) (rest : Bytes) (hb : 0x80 ≤ b)
    (hv : ¬ ((decodeRune (b :: rest)).1 = RuneError ∧ (decodeRune (b :: rest)).2 = 1)) :
    (∃ b1 t, rest = b1 :: t ∧ 0xC2 ≤ b ∧ b < 0xE0 ∧ 0x80 ≤ b1 ∧ b1 ≤ 0xBF ∧
      decodeRune (b :: rest) = (b % 32 * 64 + b1 % 64, 2)) ∨
    (∃ b1 b2 t, rest = b1 :: b2 :: t ∧ 0xE0 ≤ b ∧ b < 0xF0 ∧
      acceptLo b ≤ b1 ∧ b1 ≤ acceptHi b ∧ 0x80 ≤ b2 ∧ b2 ≤ 0xBF ∧
      decodeRune (b :: rest) = (b % 16 * 4096 + b1 % 64 * 64 + b2 % 64, 3)) ∨
    (∃ b1 b2 b3 t, rest = b1 :: b2 :: b3 :: t ∧ 0xF0 ≤ b ∧ b < 0xF5 ∧
      acceptLo b ≤ b1 ∧ b1 ≤ acceptHi b ∧ 0x80 ≤ b2 ∧ b2 ≤ 0xBF ∧ 0x80 ≤ b3 ∧ b3 ≤ 0xBF ∧
      decodeRune (b :: rest) =
        (b % 8 * 262144 + b1 % 64 * 4096 + b2 % 64 * 64 + b3 % 64, 4)) := by
  have h1 : ¬ b < 0x80 := by omega
  by_cases h2 : b < 0xC2
  · exact absurd (by simp [decodeRune, h1, h2]) hv
  by_cases h3 : b < 0xE0
  · left
    rcases rest with _ | ⟨b1, t⟩
    · exact absurd (by simp [decodeRune, h1, h2, h3]) hv
    · by_cases hc : isCont b1 = true
      · have hc2 := hc
        simp only [isCont, Bool.and_eq_true, decide_eq_true_eq] at hc2
        exact ⟨b1, t, rfl, by omega, h3, hc2.1, hc2.2, by simp [decodeRune, h1, h2, h3, hc]⟩
      · exact absurd (by simp [decodeRune, h1, h2, h3, hc]) hv
  by_cases h4 : b < 0xF0
  · right; left
    rcases rest with _ | ⟨b1, _ | ⟨b2, t⟩⟩
    · exact absurd (by simp [decodeRune, h1, h2, h3, h4]) hv
    · exact absurd (by simp [decodeRune, h1, h2, h3, h4]) hv
    · by_cases hc : acceptLo b ≤ b1 ∧ b1 ≤ acceptHi b ∧ isCont b2 = true
      · have hc2 := hc.2.2
        simp only [isCont, Bool.and_eq_true, decide_eq_true_eq] at hc2
        exact ⟨b1, b2, t, rfl, by omega, h4, hc.1, hc.2.1, hc2.1, hc2.2,
          by simp [decodeRune, h1, h2, h3, h4, hc]⟩
      · exact absurd (by simp [decodeRune, h1, h2, h3, h4, hc]) hv
  by_cases h5 : b < 0xF5
  · right; right
    rcases rest with _ | ⟨b1, _ | ⟨b2, _ | ⟨b3, t⟩⟩⟩
    · exact absurd (by simp [decodeRune, h1, h2, h3, h4, h5]) hv
    · exact absurd (by simp [decodeRune, h1, h2, h3, h4, h5]) hv
    · exact absurd (by simp [decodeRune, h1, h2, h3, h4, h5]) hv
    · by_cases hc : acceptLo b ≤ b1 ∧ b1 ≤ acceptHi b ∧ isCont b2 = true ∧ isCont b3 = true
      · have hc2 := hc.2.2.1
        have hc3 := hc.2.2.2
        simp only [isCont, Bool.and_eq_true, decide_eq_true_eq] at hc2 hc3
        exact ⟨b1, b2, b3, t, rfl, by omega, h5, hc.1, hc.2.1, hc2.1, hc2.2, hc3.1, hc3.2,
          by simp [decodeRune, h1, h2, h3, h4, h5, hc]⟩
      · exact absurd (by simp [decodeRune, h1, h2, h3, h4, h5, hc]) hv
  · exact absurd (by simp [decodeRune, h1, h2, h3, h4, h5]) hv

theorem encodeRune_two (b b1 : Nat) (h0 : 0xC2 ≤ b) (h1 : b < 0xE0)
    (h2 : 0x80 ≤ b1) (h3 : b1 ≤ 0xBF) :
    encodeRune (b % 32 * 64 + b1 % 64) = [b, b1] := by
  unfold encodeRune
  have e1 : ¬ (b % 32 * 64 + b1 % 64 < 0x80) := by omega
  have e2 : b % 32 * 64 + b1 % 64 < 0x800 := by omega
  simp only [e1, e2, if_true, if_false]
  congr 1
  · omega
  · congr 1
    omega

theorem encodeRune_three (b b1 b2 : Nat) (h0 : 0xE0 ≤ b) (h1 : b < 0xF0)
    (hlo : acceptLo b ≤ b1) (hhi : b1 ≤ acceptHi b) (h2 : 0x80 ≤ b2) (h3 : b2 ≤ 0xBF) :
    encodeRune (b % 16 * 4096 + b1 % 64 * 64 + b2 % 64) = [b, b1, b2] := by
  have hl : 0x80 ≤ b1 ∧ (b = 0xE0 → 0xA0 ≤ b1) := by
    unfold acceptLo at hlo
    split_ifs at hlo <;> omega
  have hh : b1 ≤ 0xBF ∧ (b = 0xED → b1 ≤ 0x9F) := by
    unfold acceptHi at hhi
    split_ifs at hhi <;> omega
  unfold encodeRune
  have e1 : ¬ (b % 16 * 4096 + b1 % 64 * 64 + b2 % 64 < 0x80) := by omega
  have e2 : ¬ (b % 16 * 4096 + b1 % 64 * 64 + b2 % 64 < 0x800) := by omega
  have e3 : ¬ (b % 16 * 4096 + b1 % 64 * 64 + b2 % 64 > 0x10FFFF ∨
      (0xD800 ≤ b % 16 * 4096 + b1 % 64 * 64 + b2 % 64 ∧
        b % 16 * 4096 + b1 % 64 * 64 + b2 % 64 ≤ 0xDFFF)) := by omega
  have e4 : b % 16 * 4096 + b1 % 64 * 64 + b2 % 64 < 0x10000 := by omega
  simp only [e1, e2, e3, e4, if_true, if_false]
  congr 1
  · omega
  · congr 1
    · omega
    · congr 1
      omega

theorem encodeRune_four (b b1 b2 b3 : Nat) (h0 : 0xF0 ≤ b) (h1 : b < 0xF5)
    (hlo : acceptLo b ≤ b1) (hhi : b1 ≤ acceptHi b) (h2 : 0x80 ≤ b2) (h3 : b2 ≤ 0xBF)
    (h4 : 0x80 ≤ b3) (h5 : b3 ≤ 0xBF) :
    encodeRune (b % 8 * 262144 + b1 % 64 * 4096 + b2 % 64 * 64 + b3 % 64)
      = [b, b1, b2, b3] := by
  have hl : 0x80 ≤ b1 ∧ (b = 0xF0 → 0x90 ≤ b1) := by
    unfold acceptLo at hlo
    split_ifs at hlo <;> omega
  have hh : b1 ≤ 0xBF ∧ (b = 0xF4 → b1 ≤ 0x8F) := by
    unfold acceptHi at hhi
    split_ifs at hhi <;> omega
  unfold encodeRune
  have e1 : ¬ (b % 8 * 262144 + b1 % 64 * 4096 + b2 % 64 * 64 + b3 % 64 < 0x80) := by omega
  have e2 : ¬ (b % 8 * 262144 + b1 % 64 * 4096 + b2 % 64 * 64 + b3 % 64 < 0x800) := by omega
  have e3 : ¬ (b % 8 * 262144 + b1 % 64 * 4096 + b2 % 64 * 64 + b3 % 64 > 0x10FFFF ∨
      (0xD800 ≤ b % 8 * 262144 + b1 % 64 * 4096 + b2 % 64 * 64 + b3 % 64 ∧
        b % 8 * 262144 + b1 % 64 * 4096 + b2 % 64 * 64 + b3 % 64 ≤ 0xDFFF)) := by omega
  have e4 : ¬ (b % 8 * 262144 + b1 % 64 * 4096 + b2 % 64 * 64 + b3 % 64 < 0x10000) := by omega
  simp only [e1, e2, e3, e4, if_true, if_false]
  congr 1
  · omega
  · congr 1
    · omega
    · congr 1
      · omega
      · congr 1
        omega


theorem decodeRune_two (b b1 : Nat) (t : Bytes) (h0 : 0xC2 ≤ b) (h1 : b < 0xE0)
    (h2 : 0x80 ≤ b1) (h3 : b1 ≤ 0xBF) :
    decodeRune (b :: b1 :: t) = (b % 32 * 64 + b1 % 64, 2) := by
  have a1 : ¬ b < 0x80 := by omega
  have a2 : ¬ b < 0xC2 := by omega
  simp [decodeRune, a1, a2, h1, isCont, h2, h3]

theorem decodeRune_three (b b1 b2 : Nat) (t : Bytes) (h0 : 0xE0 ≤ b) (h1 : b < 0xF0)
    (hlo : acceptLo b ≤ b1) (hhi : b1 ≤ acceptHi b) (h2 : 0x80 ≤ b2) (h3 : b2 ≤ 0xBF) :
    decodeRune (b :: b1 :: b2 :: t) = (b % 16 * 4096 + b1 % 64 * 64 + b2 % 64, 3) := by
  have a1 : ¬ b < 0x80 := by omega
  have a2 : ¬ b < 0xC2 := by omega
  have a3 : ¬ b < 0xE0 := by omega
  simp [decodeRune, a1, a2, a3, h1, isCont, h2, h3, hlo, hhi]

theorem decodeRune_four (b b1 b2 b3 : Nat) (t : Bytes) (h0 : 0xF0 ≤ b) (h1 : b < 0xF5)
    (hlo : acceptLo b ≤ b1) (hhi : b1 ≤ acceptHi b) (h2 : 0x80 ≤ b2) (h3 : b2 ≤ 0xBF)
    (h4 : 0x80 ≤ b3) (h5 : b3 ≤ 0xBF) :
    decodeRune (b :: b1 :: b2 :: b3 :: t)
      = (b % 8 * 262144 + b1 % 64 * 4096 + b2 % 64 * 64 + b3 % 64, 4) := by
  have a1 : ¬ b < 0x80 := by omega
  have a2 : ¬ b < 0xC2 := by omega
  have a3 : ¬ b < 0xE0 := by omega
  have a4 : ¬ b < 0xF0 := by omega
  simp [decodeRune, a1, a2, a3, a4, h1, isCont, h2, h3, h4, h5, hlo, hhi]

/-- A well-formed multi-byte sequence at the head of a string: the bytes the
decoder consumes, which are what the encoder of the rune writes, and which
decode alike whatever follows them. -/
theorem decodeRune_chunk (b : Nat) (rest : Bytes) (hb : 0x80 ≤ b)
    (hv : ¬ ((decodeRune (b :: rest)).1 = RuneError ∧ (decodeRune (b :: rest)).2 = 1)) :
    ∃ chunk tail : Bytes, rest = chunk ++ tail ∧
      (b :: chunk).length = (decodeRune (b :: rest)).2 ∧
      encodeRune (decodeRune (b :: rest)).1 = b :: chunk ∧
      ∀ X : Bytes, decodeRune (b :: chunk ++ X) = decodeRune (b :: rest) := by
  rcases decodeRune_shape b rest hb hv with
    ⟨b1, t, rfl, h0, h1, h2, h3, -⟩ | ⟨b1, b2, t, rfl, h0, h1, hlo, hhi, h2, h3, -⟩ |
    ⟨b1, b2, b3, t, rfl, h0, h1, hlo, hhi, h2, h3, h4, h5, -⟩
  · refine ⟨[b1], t, rfl, ?_, ?_, fun X => ?_⟩
    · rw [decodeRune_two b b1 t h0 h1 h2 h3]; rfl
    · rw [decodeRune_two b b1 t h0 h1 h2 h3]; exact encodeRune_two b b1 h0 h1 h2 h3
    · rw [decodeRune_two b b1 t h0 h1 h2 h3]; exact decodeRune_two b b1 X h0 h1 h2 h3
  · refine ⟨[b1, b2], t, rfl, ?_, ?_, fun X => ?_⟩
    · rw [decodeRune_three b b1 b2 t h0 h1 hlo hhi h2 h3]; rfl
    · rw [decodeRune_three b b1 b2 t h0 h1 hlo hhi h2 h3]
      exact encodeRune_three b b1 b2 h0 h1 hlo hhi h2 h3
    · rw [decodeRune_three b b1 b2 t h0 h1 hlo hhi h2 h3]
      exact decodeRune_three b b1 b2 X h0 h1 hlo hhi h2 h3
  · refine ⟨[b1, b2, b3], t, rfl, ?_, ?_, fun X => ?_⟩
    · rw [decodeRune_four b b1 b2 b3 t h0 h1 hlo hhi h2 h3 h4 h5]; rfl
    · rw [decodeRune_four b b1 b2 b3 t h0 h1 hlo hhi h2 h3 h4 h5]
      exact encodeRune_four b b1 b2 b3 h0 h1 hlo hhi h2 h3 h4 h5
    · rw [decodeRune_four b b1 b2 b3 t h0 h1 hlo hhi h2 h3 h4 h5]
      exact decodeRune_four b b1 b2 b3 X h0 h1 hlo hhi h2 h3 h4 h5

/-! ### Strings -/

theorem unquoteLoop_escapeByte (b : Nat) (hb : b < 0x80) (fuel : Nat) (X : Bytes) :
    unquoteLoop (fuel + 1) (escapeByte b ++ X) = push [b] (unquoteLoop fuel X) := by
  interval_cases b <;> rfl


theorem escapeByte_length_pos (b : Nat) : 0 < (escapeByte b).length := by
  unfold escapeByte
  split_ifs <;> simp

theorem unquoteLoop_quote (fuel : Nat) (X : Bytes) :
    unquoteLoop (fuel + 1) (0x22 :: X) = some ([], X) := by
  simp [unquoteLoop]

theorem unquoteLoop_chunk (b r : Nat) (chunk X : Bytes) (fuel : Nat) (hb : 0x80 ≤ b)
    (hdec : decodeRune (b :: chunk ++ X) = (r, (b :: chunk).length))
    (henc : encodeRune r = b :: chunk) :
    unquoteLoop (fuel + 1) (b :: chunk ++ X) = push (b :: chunk) (unquoteLoop fuel X) := by
  have a1 : b ≠ 0x22 := by omega
  have a2 : b ≠ 0x5C := by omega
  have a3 : ¬ b < 0x20 := by omega
  have a4 : ¬ b < 0x80 := by omega
  have hd : List.drop (b :: chunk).length (b :: chunk ++ X) = X :=
    List.drop_left (b :: chunk) X
  have hdec2 : decodeRune (b :: (chunk ++ X)) = (r, (b :: chunk).length) := hdec
  have hd2 : List.drop (b :: chunk).length (b :: (chunk ++ X)) = X := hd
  show unquoteLoop (fuel + 1) (b :: (chunk ++ X)) = _
  simp only [unquoteLoop, a1, a2, a3, a4, if_false, hdec2, henc, hd2]

theorem unquoteLoop_lineSep (r : Nat) (hr : r = 0x2028 ∨ r = 0x2029) (fuel : Nat)
    (X : Bytes) :
    unquoteLoop (fuel + 1) ([0x5C, 0x75, 0x32, 0x30, 0x32, hexDigit (r % 16)] ++ X)
      = push (encodeRune r) (unquoteLoop fuel X) := by
  rcases hr with rfl | rfl <;> rfl

theorem push_some (t s X : Bytes) : push t (some (s, X)) = some (t ++ s, X) := rfl

theorem unquoteLoop_appendLoop : ∀ (n : Nat) (s : Bytes), s.length ≤ n →
    validLoop n s = true → ∀ (X : Bytes) (fuel : Nat), (appendLoop n s).length < fuel →
      unquoteLoop fuel (appendLoop n s ++ 0x22 :: X) = some (s, X) := by
  intro n
  induction n with
  | zero =>
    intro s hlen _ X fuel hfuel
    have hs : s = [] := List.length_eq_zero.mp (Nat.le_zero.mp hlen)
    subst hs
    obtain ⟨f, rfl⟩ := Nat.exists_eq_succ_of_ne_zero (Nat.pos_iff_ne_zero.mp (by omega : 0 < fuel))
    simpa [appendLoop] using unquoteLoop_quote f X
  | succ n ih =>
    intro s hlen hvalid X fuel hfuel
    rcases s with _ | ⟨b, rest⟩
    · obtain ⟨f, rfl⟩ := Nat.exists_eq_succ_of_ne_zero (Nat.pos_iff_ne_zero.mp (by omega : 0 < fuel))
      simpa [appendLoop] using unquoteLoop_quote f X
    · have hrest : rest.length ≤ n := by simpa using hlen
      by_cases hb : b < 0x80
      · have hdec : decodeRune (b :: rest) = (b, 1) := by simp [decodeRune, hb]
        have hne : b ≠ RuneError := by unfold RuneError; omega
        have hvalid2 : validLoop n rest = true := by
          simpa [validLoop, hdec, hne] using hvalid
        have happ : appendLoop (n + 1) (b :: rest) = escapeByte b ++ appendLoop n rest := by
          simp [appendLoop, hb]
        rw [happ] at hfuel ⊢
        have hpos := escapeByte_length_pos b
        rw [List.length_append] at hfuel
        obtain ⟨f, rfl⟩ := Nat.exists_eq_succ_of_ne_zero (Nat.pos_iff_ne_zero.mp (by omega : 0 < fuel))
        rw [List.append_assoc, unquoteLoop_escapeByte b hb f,
          ih rest hrest hvalid2 X f (by omega), push_some]
        rfl
      · have hb2 : 0x80 ≤ b := by omega
        have hv : ¬ ((decodeRune (b :: rest)).1 = RuneError ∧ (decodeRune (b :: rest)).2 = 1) := by
          intro h
          simp [validLoop, h] at hvalid
        obtain ⟨chunk, tail, hsplit, hsize, henc, hloc⟩ := decodeRune_chunk b rest hb2 hv
        have hdrop : List.drop (decodeRune (b :: rest)).2 (b :: rest) = tail := by
          rw [← hsize, hsplit]
          exact List.drop_left (b :: chunk) tail
        have htake : List.take (decodeRune (b :: rest)).2 (b :: rest) = b :: chunk := by
          rw [← hsize, hsplit]
          exact List.take_left (b :: chunk) tail
        have htail : tail.length ≤ n := by
          rw [hsplit, List.length_append] at hrest
          omega
        have hvalid2 : validLoop n tail = true := by
          have := hvalid
          rw [validLoop] at this
          simp only [hv, if_false] at this
          rw [hdrop] at this
          exact this
        by_cases hsep : (decodeRune (b :: rest)).1 = 0x2028 ∨ (decodeRune (b :: rest)).1 = 0x2029
        · have happ : appendLoop (n + 1) (b :: rest) =
              [0x5C, 0x75, 0x32, 0x30, 0x32, hexDigit ((decodeRune (b :: rest)).1 % 16)]
                ++ appendLoop n tail := by
            rw [appendLoop]
            simp only [hb, hv, hsep, if_true, if_false, hdrop]
          rw [happ] at hfuel ⊢
          rw [List.length_append] at hfuel
          obtain ⟨f, rfl⟩ := Nat.exists_eq_succ_of_ne_zero (Nat.pos_iff_ne_zero.mp (by omega : 0 < fuel))
          rw [List.append_assoc, unquoteLoop_lineSep _ hsep f,
            ih tail htail hvalid2 X f (by simp at hfuel; omega), push_some, henc, hsplit]
          rfl
        · have happ : appendLoop (n + 1) (b :: rest) = (b :: chunk) ++ appendLoop n tail := by
            rw [appendLoop]
            simp only [hb, hv, hsep, if_false, hdrop, htake]
          rw [happ] at hfuel ⊢
          rw [List.length_append] at hfuel
          obtain ⟨f, rfl⟩ := Nat.exists_eq_succ_of_ne_zero (Nat.pos_iff_ne_zero.mp (by omega : 0 < fuel))
          have hdec : decodeRune (b :: chunk ++ (appendLoop n tail ++ 0x22 :: X))
              = ((decodeRune (b :: rest)).1, (b :: chunk).length) := by
            rw [hloc, hsize]
          rw [List.append_assoc, unquoteLoop_chunk b _ chunk _ f hb2 hdec henc,
            ih tail htail hvalid2 X f (by simp at hfuel; omega), push_some, hsplit]
          rfl

theorem unquote_appendString (s X : Bytes) (hs : ValidString s = true) :
    unquote (appendLoop s.length s ++ 0x22 :: X) = some (s, X) := by
  unfold unquote
  exact unquoteLoop_appendLoop s.length s (Nat.le_refl _) hs X _ (by simp)

/-! ### Numbers -/

theorem formatBits_shape : ∀ (fuel u : Nat) (acc : Bytes), 0 < fuel → u < 10 ^ fuel →
    ∃ (d : Nat) (ds : Bytes), formatBits fuel u acc = d :: (ds ++ acc) ∧
      (∀ c ∈ ds, isDigit c = true) ∧ 0x30 ≤ d ∧ d ≤ 0x39 ∧ (0 < u → 0x31 ≤ d) := by
  intro fuel
  induction fuel with
  | zero => intro u acc h; omega
  | succ f ih =>
    intro u acc _ hu
    by_cases h10 : u < 10
    · refine ⟨0x30 + u, [], by simp [formatBits, h10], by simp, by omega, by omega, by omega⟩
    · have hq : u / 10 < 10 ^ f := by
        rw [pow_succ] at hu
        omega
      have hf : 0 < f := by
        rcases Nat.eq_zero_or_pos f with h0 | h0
        · subst h0
          simp at hq
          omega
        · exact h0
      obtain ⟨d, ds, heq, hds, hlo, hhi, hpos⟩ :=
        ih (u / 10) ((0x30 + u % 10) :: acc) hf hq
      refine ⟨d, ds ++ [0x30 + u % 10], ?_, ?_, hlo, hhi, fun _ => hpos (by omega)⟩
      · simp [formatBits, h10, heq]
      · intro c hc
        rcases List.mem_append.mp hc with h | h
        · exact hds c h
        · have hc2 : c = 0x30 + u % 10 := by simpa using h
          subst hc2
          simp only [isDigit, Bool.and_eq_true, decide_eq_true_eq]
          omega

theorem foldlM_formatBits : ∀ (fuel u : Nat) (acc : Bytes), u < 10 ^ fuel →
    List.foldlM digitStep 0 (formatBits fuel u acc) = List.foldlM digitStep u acc := by
  intro fuel
  induction fuel with
  | zero =>
    intro u acc hu
    have h0 : u = 0 := by simpa using hu
    subst h0
    rfl
  | succ f ih =>
    intro u acc hu
    by_cases h10 : u < 10
    · have hd : isDigit (0x30 + u) = true := by
        simp only [isDigit, Bool.and_eq_true, decide_eq_true_eq]
        omega
      simp [formatBits, h10, digitStep, hd]
    · have hq : u / 10 < 10 ^ f := by
        rw [pow_succ] at hu
        omega
      have hd : isDigit (0x30 + u % 10) = true := by
        simp only [isDigit, Bool.and_eq_true, decide_eq_true_eq]
        omega
      have hval : u / 10 * 10 + (0x30 + u % 10 - 0x30) = u := by omega
      have hstep : formatBits (f + 1) u acc = formatBits f (u / 10) ((0x30 + u % 10) :: acc) := by
        simp [formatBits, h10]
      have hval2 : u / 10 * 10 + u % 10 = u := by omega
      rw [hstep, ih (u / 10) _ hq]
      simp [digitStep, hd, hval, hval2]

theorem ParseUint_formatBits (fuel u : Nat) (hf : 0 < fuel) (hu : u < 10 ^ fuel) :
    ParseUint (formatBits fuel u []) = some u := by
  obtain ⟨d, ds, heq, -⟩ := formatBits_shape fuel u [] hf hu
  have h := foldlM_formatBits fuel u [] hu
  rw [heq] at h ⊢
  unfold ParseUint
  rw [h]
  rfl

theorem ParseInt_AppendInt (i : Int) (hlo : -(2 ^ 63) ≤ i) (hhi : i < 2 ^ 63) :
    ParseInt (AppendInt i) = some i := by
  unfold AppendInt
  by_cases hneg : i < 0
  · have hu : (-i).toNat < 10 ^ 20 := by omega
    simp only [hneg, if_true]
    unfold ParseInt
    simp only [show ¬ ((0x2D : Nat) = 0x2B) by decide, if_false, if_true]
    rw [ParseUint_formatBits 20 _ (by decide) hu]
    have hle : (-i).toNat ≤ 2 ^ 63 := by omega
    simp only [Option.some_bind, hle, if_true]
    congr 1
    omega
  · have hu : i.toNat < 10 ^ 20 := by omega
    simp only [hneg, if_false]
    obtain ⟨d, ds, heq, -, hdlo, hdhi, -⟩ := formatBits_shape 20 i.toNat [] (by decide) hu
    have hp := ParseUint_formatBits 20 i.toNat (by decide) hu
    rw [heq] at hp ⊢
    unfold ParseInt
    have n1 : ¬ d = 0x2B := by omega
    have n2 : ¬ d = 0x2D := by omega
    simp only [n1, n2, if_false, hp]
    have hlt : i.toNat < 2 ^ 63 := by omega
    simp only [Option.some_bind, hlt, if_true]
    congr 1
    omega

theorem takeWhile_digits (ds X : Bytes) (c : Nat) (hds : ∀ x ∈ ds, isDigit x = true)
    (hc : isDigit c = false) :
    (ds ++ c :: X).takeWhile isDigit = ds ∧ (ds ++ c :: X).dropWhile isDigit = c :: X := by
  induction ds with
  | nil => simp [List.takeWhile, List.dropWhile, hc]
  | cons d ds ih =>
    have hd : isDigit d = true := hds d (List.mem_cons_self _ _)
    have ih2 := ih (fun x hx => hds x (List.mem_cons_of_mem _ hx))
    simp [List.takeWhile, List.dropWhile, hd, ih2.1, ih2.2]

theorem scanUnsigned_digits (d : Nat) (ds X : Bytes) (c : Nat)
    (hd : 0x30 ≤ d ∧ d ≤ 0x39) (hz : d = 0x30 → ds = [])
    (hds : ∀ x ∈ ds, isDigit x = true)
    (hc : c = 0x2C ∨ c = 0x7D) :
    scanUnsigned (d :: (ds ++ c :: X)) = some (d :: ds, c :: X) := by
  have hcd : isDigit c = false := by
    rcases hc with rfl | rfl <;> rfl
  have hc1 : ¬ c = 0x2E := by rcases hc with rfl | rfl <;> decide
  have hc2 : ¬ (c = 0x65 ∨ c = 0x45) := by rcases hc with rfl | rfl <;> decide
  have htw := takeWhile_digits ds X c hds hcd
  have hint : scanInt (d :: (ds ++ c :: X)) = some (d :: ds, c :: X) := by
    unfold scanInt
    by_cases h0 : d = 0x30
    · have := hz h0
      subst this
      simp [h0]
    · have h1 : 0x31 ≤ d ∧ d ≤ 0x39 := by omega
      simp only [h0, if_false, h1, and_self, if_true, htw.1, htw.2]
  unfold scanUnsigned
  rw [hint]
  simp [scanFrac, scanExp, hc1, hc2]

theorem scanNumber_AppendInt (i : Int) (X : Bytes) (c : Nat)
    (hlo : -(2 ^ 63) ≤ i) (hhi : i < 2 ^ 63) (hc : c = 0x2C ∨ c = 0x7D) :
    scanNumber (AppendInt i ++ c :: X) = some (AppendInt i, c :: X) := by
  unfold AppendInt
  by_cases hneg : i < 0
  · have hu : (-i).toNat < 10 ^ 20 := by omega
    obtain ⟨d, ds, heq, hds, hdlo, hdhi, hpos⟩ :=
      formatBits_shape 20 (-i).toNat [] (by decide) hu
    have hz : d = 0x30 → ds = [] := by
      intro h
      have := hpos (by omega)
      omega
    simp only [hneg, if_true, heq, List.append_nil, List.cons_append]
    simp [scanNumber, scanUnsigned_digits d ds X c ⟨hdlo, hdhi⟩ hz hds hc]
  · have hu : i.toNat < 10 ^ 20 := by omega
    obtain ⟨d, ds, heq, hds, hdlo, hdhi, hpos⟩ :=
      formatBits_shape 20 i.toNat [] (by decide) hu
    have hz : d = 0x30 → ds = [] := by
      intro h
      by_cases h0 : i.toNat = 0
      · have h1 : formatBits 20 i.toNat [] = [0x30] := by rw [h0]; rfl
        rw [h1] at heq
        have h2 := (List.cons.inj heq).2
        simpa using h2.symm
      · have := hpos (by omega)
        omega
    have n2 : ¬ d = 0x2D := by omega
    simp only [hneg, if_false, heq, List.append_nil, List.cons_append]
    simp [scanNumber, n2, scanUnsigned_digits d ds X c ⟨hdlo, hdhi⟩ hz hds hc]


/-! ### Strings that are not valid UTF-8 -/

theorem unquoteLoop_invalid (fuel : Nat) (X : Bytes) :
    unquoteLoop (fuel + 1) ([0x5C, 0x75, 0x66, 0x66, 0x66, 0x64] ++ X)
      = push [0xEF, 0xBF, 0xBD] (unquoteLoop fuel X) := rfl

theorem unquoteLoop_appendLoop_coerce : ∀ (n : Nat) (s : Bytes), s.length ≤ n →
    ∀ (X : Bytes) (fuel : Nat), (appendLoop n s).length < fuel →
      unquoteLoop fuel (appendLoop n s ++ 0x22 :: X) = some (coerceLoop n s, X) := by
  intro n
  induction n with
  | zero =>
    intro s hlen X fuel hfuel
    have hs : s = [] := List.length_eq_zero.mp (Nat.le_zero.mp hlen)
    subst hs
    obtain ⟨f, rfl⟩ := Nat.exists_eq_succ_of_ne_zero (Nat.pos_iff_ne_zero.mp (by omega : 0 < fuel))
    simpa [appendLoop, coerceLoop] using unquoteLoop_quote f X
  | succ n ih =>
    intro s hlen X fuel hfuel
    rcases s with _ | ⟨b, rest⟩
    · obtain ⟨f, rfl⟩ := Nat.exists_eq_succ_of_ne_zero (Nat.pos_iff_ne_zero.mp (by omega : 0 < fuel))
      simpa [appendLoop, coerceLoop] using unquoteLoop_quote f X
    · have hrest : rest.length ≤ n := by simpa using hlen
      by_cases hb : b < 0x80
      · have hdec : decodeRune (b :: rest) = (b, 1) := by simp [decodeRune, hb]
        have hne : b ≠ RuneError := by unfold RuneError; omega
        have hco : coerceLoop (n + 1) (b :: rest) = [b] ++ coerceLoop n rest := by
          simp [coerceLoop, hdec, hne]
        have happ : appendLoop (n + 1) (b :: rest) = escapeByte b ++ appendLoop n rest := by
          simp [appendLoop, hb]
        rw [happ] at hfuel ⊢
        have hpos := escapeByte_length_pos b
        rw [List.length_append] at hfuel
        obtain ⟨f, rfl⟩ := Nat.exists_eq_succ_of_ne_zero (Nat.pos_iff_ne_zero.mp (by omega : 0 < fuel))
        rw [List.append_assoc, unquoteLoop_escapeByte b hb f,
          ih rest hrest X f (by omega), push_some, hco]
      · have hb2 : 0x80 ≤ b := by omega
        by_cases hv : (decodeRune (b :: rest)).1 = RuneError ∧ (decodeRune (b :: rest)).2 = 1
        · have hco : coerceLoop (n + 1) (b :: rest)
              = [0xEF, 0xBF, 0xBD] ++ coerceLoop n rest := by
            rw [coerceLoop]
            simp only [hv, and_self, if_true]
          have happ : appendLoop (n + 1) (b :: rest)
              = [0x5C, 0x75, 0x66, 0x66, 0x66, 0x64] ++ appendLoop n rest := by
            rw [appendLoop]
            simp only [hb, hv, and_self, if_true, if_false]
          rw [happ] at hfuel ⊢
          rw [List.length_append] at hfuel
          obtain ⟨f, rfl⟩ := Nat.exists_eq_succ_of_ne_zero (Nat.pos_iff_ne_zero.mp (by omega : 0 < fuel))
          rw [List.append_assoc, unquoteLoop_invalid f,
            ih rest hrest X f (by simp at hfuel; omega), push_some, hco]
        · obtain ⟨chunk, tail, hsplit, hsize, henc, hloc⟩ := decodeRune_chunk b rest hb2 hv
          have hdrop : List.drop (decodeRune (b :: rest)).2 (b :: rest) = tail := by
            rw [← hsize, hsplit]
            exact List.drop_left (b :: chunk) tail
          have htake : List.take (decodeRune (b :: rest)).2 (b :: rest) = b :: chunk := by
            rw [← hsize, hsplit]
            exact List.take_left (b :: chunk) tail
          have htail : tail.length ≤ n := by
            rw [hsplit, List.length_append] at hrest
            omega
          have hco : coerceLoop (n + 1) (b :: rest) = (b :: chunk) ++ coerceLoop n tail := by
            rw [coerceLoop]
            simp only [hv, if_false, hdrop, htake]
          by_cases hsep : (decodeRune (b :: rest)).1 = 0x2028 ∨ (decodeRune (b :: rest)).1 = 0x2029
          · have happ : appendLoop (n + 1) (b :: rest) =
                [0x5C, 0x75, 0x32, 0x30, 0x32, hexDigit ((decodeRune (b :: rest)).1 % 16)]
                  ++ appendLoop n tail := by
              rw [appendLoop]
              simp only [hb, hv, hsep, if_true, if_false, hdrop]
            rw [happ] at hfuel ⊢
            rw [List.length_append] at hfuel
            obtain ⟨f, rfl⟩ := Nat.exists_eq_succ_of_ne_zero (Nat.pos_iff_ne_zero.mp (by omega : 0 < fuel))
            rw [List.append_assoc, unquoteLoop_lineSep _ hsep f,
              ih tail htail X f (by simp at hfuel; omega), push_some, henc, hco]
          · have happ : appendLoop (n + 1) (b :: rest) = (b :: chunk) ++ appendLoop n tail := by
              rw [appendLoop]
              simp only [hb, hv, hsep, if_false, hdrop, htake]
            rw [happ] at hfuel ⊢
            rw [List.length_append] at hfuel
            obtain ⟨f, rfl⟩ := Nat.exists_eq_succ_of_ne_zero (Nat.pos_iff_ne_zero.mp (by omega : 0 < fuel))
            have hdec : decodeRune (b :: chunk ++ (appendLoop n tail ++ 0x22 :: X))
                = ((decodeRune (b :: rest)).1, (b :: chunk).length) := by
              rw [hloc, hsize]
            rw [List.append_assoc, unquoteLoop_chunk b _ chunk _ f hb2 hdec henc,
              ih tail htail X f (by simp at hfuel; omega), push_some, hco]

theorem unquote_appendString_coerce (s X : Bytes) :
    unquote (appendLoop s.length s ++ 0x22 :: X) = some (coerceUTF8 s, X) := by
  unfold unquote coerceUTF8
  exact unquoteLoop_appendLoop_coerce s.length s (Nat.le_refl _) X _ (by simp)

theorem coerceUTF8_valid (s : Bytes) (hs : ValidString s = true) : coerceUTF8 s = s := by
  have h1 := unquote_appendString_coerce s []
  rw [unquote_appendString s [] hs] at h1
  exact (congrArg Prod.fst (Option.some.inj h1)).symm

theorem coerceLoop_length : ∀ (n : Nat) (s : Bytes), s.length ≤ n →
    s.length ≤ (coerceLoop n s).length ∧
    (validLoop n s = false → s.length < (coerceLoop n s).length) := by
  intro n
  induction n with
  | zero =>
    intro s hlen
    have hs : s = [] := List.length_eq_zero.mp (Nat.le_zero.mp hlen)
    subst hs
    simp [coerceLoop, validLoop]
  | succ n ih =>
    intro s hlen
    rcases s with _ | ⟨b, rest⟩
    · simp [coerceLoop, validLoop]
    · have hrest : rest.length ≤ n := by simpa using hlen
      by_cases hv : (decodeRune (b :: rest)).1 = RuneError ∧ (decodeRune (b :: rest)).2 = 1
      · have hco : coerceLoop (n + 1) (b :: rest)
            = [0xEF, 0xBF, 0xBD] ++ coerceLoop n rest := by
          rw [coerceLoop]
          simp only [hv, and_self, if_true]
        have h := (ih rest hrest).1
        rw [hco]
        simp only [List.length_append, List.length_cons, List.length_nil]
        constructor
        · omega
        · intro _
          omega
      · have hsplit : ∃ chunk tail : Bytes, rest = chunk ++ tail ∧
            List.take (decodeRune (b :: rest)).2 (b :: rest) = b :: chunk ∧
            List.drop (decodeRune (b :: rest)).2 (b :: rest) = tail := by
          by_cases hb : b < 0x80
          · have hdec : decodeRune (b :: rest) = (b, 1) := by simp [decodeRune, hb]
            exact ⟨[], rest, rfl, by simp [hdec], by simp [hdec]⟩
          · obtain ⟨chunk, tail, hsplit, hsize, -, -⟩ :=
              decodeRune_chunk b rest (by omega) hv
            refine ⟨chunk, tail, hsplit, ?_, ?_⟩
            · rw [← hsize, hsplit]
              exact List.take_left (b :: chunk) tail
            · rw [← hsize, hsplit]
              exact List.drop_left (b :: chunk) tail
        obtain ⟨chunk, tail, hsplit, htake, hdrop⟩ := hsplit
        have htail : tail.length ≤ n := by
          rw [hsplit, List.length_append] at hrest
          omega
        have hco : coerceLoop (n + 1) (b :: rest) = (b :: chunk) ++ coerceLoop n tail := by
          rw [coerceLoop]
          simp only [hv, if_false, hdrop, htake]
        have hval : validLoop (n + 1) (b :: rest) = validLoop n tail := by
          rw [validLoop]
          simp only [hv, if_false, hdrop]
        obtain ⟨h1, h2⟩ := ih tail htail
        rw [hco, hval, hsplit]
        simp only [List.length_append, List.length_cons]
        constructor
        · omega
        · intro hf
          have := h2 hf
          omega

theorem coerceUTF8_eq_iff (s : Bytes) : coerceUTF8 s = s ↔ ValidString s = true := by
  constructor
  · intro h
    by_contra hv
    have hf : validLoop s.length s = false := by
      simpa [ValidString] using hv
    have hlt := (coerceLoop_length s.length s (Nat.le_refl _)).2 hf
    have hlen : (coerceUTF8 s).length = s.length := by rw [h]
    unfold coerceUTF8 at hlen
    omega
  · exact coerceUTF8_valid s

/-! ### Values -/

theorem parseValue_string (s X : Bytes) (fuel depth : Nat) :
    parseValue (fuel + 1) depth (appendString s ++ X)
      = some (JVal.string (coerceUTF8 s), X) := by
  have happ : appendString s ++ X = 0x22 :: (appendLoop s.length s ++ 0x22 :: X) := by
    simp [appendString]
  rw [happ, parseValue]
  simp [skipSpace, isSpace, unquote_appendString_coerce s X]

theorem AppendInt_head (i : Int) (hlo : -(2 ^ 63) ≤ i) (hhi : i < 2 ^ 63) :
    ∃ (d : Nat) (rest : Bytes), AppendInt i = d :: rest ∧
      (d = 0x2D ∨ (0x30 ≤ d ∧ d ≤ 0x39)) := by
  unfold AppendInt
  by_cases hneg : i < 0
  · exact ⟨0x2D, formatBits 20 (-i).toNat [], by simp [hneg], Or.inl rfl⟩
  · have hu : i.toNat < 10 ^ 20 := by omega
    obtain ⟨d, ds, heq, -, hdlo, hdhi, -⟩ := formatBits_shape 20 i.toNat [] (by decide) hu
    exact ⟨d, ds ++ [], by simp [hneg, heq], Or.inr ⟨hdlo, hdhi⟩⟩

theorem parseValue_number (i : Int) (X : Bytes) (c fuel depth : Nat)
    (hlo : -(2 ^ 63) ≤ i) (hhi : i < 2 ^ 63) (hc : c = 0x2C ∨ c = 0x7D) :
    parseValue (fuel + 1) depth (AppendInt i ++ c :: X)
      = some (JVal.number (AppendInt i), c :: X) := by
  have hscan := scanNumber_AppendInt i X c hlo hhi hc
  obtain ⟨d, rest, heq, hd⟩ := AppendInt_head i hlo hhi
  rw [heq] at hscan ⊢
  have hsp : isSpace d = false := by
    rcases hd with rfl | hd
    · rfl
    · simp only [isSpace, Bool.or_eq_false_iff, decide_eq_false_iff_not]
      omega
  have n1 : ¬ d = 0x22 := by rcases hd with rfl | hd <;> omega
  have n2 : ¬ d = 0x7B := by rcases hd with rfl | hd <;> omega
  have n3 : ¬ d = 0x5B := by rcases hd with rfl | hd <;> omega
  have n4 : ¬ d = 0x74 := by rcases hd with rfl | hd <;> omega
  have n5 : ¬ d = 0x66 := by rcases hd with rfl | hd <;> omega
  have n6 : ¬ d = 0x6E := by rcases hd with rfl | hd <;> omega
  rw [parseValue]
  simp only [List.cons_append, skipSpace, List.dropWhile_cons, hsp, Bool.false_eq_true,
    if_false, n1, n2, n3, n4, n5, n6]
  simp only [List.cons_append] at hscan
  rw [hscan]
  rfl

theorem parseValue_true (X : Bytes) (fuel depth : Nat) :
    parseValue (fuel + 1) depth (ascii "true" ++ X) = some (JVal.bool true, X) := by
  have h : ascii "true" ++ X = 0x74 :: 0x72 :: 0x75 :: 0x65 :: X := rfl
  rw [h, parseValue]
  simp [skipSpace, isSpace, scanLiteral, ascii]

/-! ### Objects -/

theorem parseMembers_fields (ms : List Member) :
    ∀ (m : Member) (fuel depth : Nat) (X : Bytes),
      (∀ m' ∈ m :: ms,
        (∀ Y, unquote (m'.key ++ 0x22 :: 0x3A :: Y) = some (m'.key, 0x3A :: Y)) ∧
        ∀ (f c : Nat) (Y : Bytes), (c = 0x2C ∨ c = 0x7D) →
          parseValue (f + 1) depth (m'.enc ++ c :: Y) = some (m'.val, c :: Y)) →
      ms.length + 2 ≤ fuel →
      parseMembers fuel depth (m.field ++ (writeFields 0x2C (ms.map Member.field) ++ X))
        = some ((m :: ms).map fun m' => (m'.key, m'.val), X) := by
  induction ms with
  | nil =>
    intro m fuel depth X hg hf
    obtain ⟨f, rfl⟩ : ∃ f, fuel = f + 2 := ⟨fuel - 2, by simp at hf; omega⟩
    obtain ⟨hk, hv⟩ := hg m (List.mem_cons_self _ _)
    have h1 : m.field ++ (writeFields 0x2C (([] : List Member).map Member.field) ++ X)
        = 0x22 :: (m.key ++ 0x22 :: 0x3A :: (m.enc ++ 0x7D :: X)) := by
      simp [Member.field, writeFields]
    rw [h1, parseMembers]
    simp [skipSpace, isSpace, hk, hv f 0x7D X (Or.inr rfl)]
  | cons m2 ms ih =>
    intro m fuel depth X hg hf
    obtain ⟨f, rfl⟩ : ∃ f, fuel = f + 2 := ⟨fuel - 2, by simp at hf; omega⟩
    obtain ⟨hk, hv⟩ := hg m (List.mem_cons_self _ _)
    have hg2 : ∀ m' ∈ m2 :: ms,
        (∀ Y, unquote (m'.key ++ 0x22 :: 0x3A :: Y) = some (m'.key, 0x3A :: Y)) ∧
        ∀ (f c : Nat) (Y : Bytes), (c = 0x2C ∨ c = 0x7D) →
          parseValue (f + 1) depth (m'.enc ++ c :: Y) = some (m'.val, c :: Y) :=
      fun m' hm => hg m' (List.mem_cons_of_mem _ hm)
    have hf2 : ms.length + 2 ≤ f + 1 := by simp at hf; omega
    have hrec := ih m2 (f + 1) depth X hg2 hf2
    have h1 : m.field ++ (writeFields 0x2C ((m2 :: ms).map Member.field) ++ X)
        = 0x22 :: (m.key ++ 0x22 :: 0x3A :: (m.enc ++ 0x2C ::
            (m2.field ++ (writeFields 0x2C (ms.map Member.field) ++ X)))) := by
      simp [Member.field, writeFields]
    rw [h1, parseMembers]
    simp [skipSpace, isSpace, hk, hv f 0x2C _ (Or.inl rfl), hrec]

theorem unquote_key (k : Bytes) (hv : ValidString k = true)
    (hk : appendLoop k.length k = k) (Y : Bytes) :
    unquote (k ++ 0x22 :: 0x3A :: Y) = some (k, 0x3A :: Y) := by
  have h := unquote_appendString k (0x3A :: Y) hv
  rw [hk] at h
  exact h

theorem encodeFields_members (v : WhoisLookupParams) :
    encodeFields v = (members v).map Member.field := by
  unfold encodeFields members
  split_ifs <;> simp [Member.field, name]

theorem members_good (v : WhoisLookupParams) (depth : Nat)
    (hlo : -(2 ^ 63) ≤ v.Timeout) (hhi : v.Timeout < 2 ^ 63) :
    ∀ m ∈ members v,
      (∀ Y, unquote (m.key ++ 0x22 :: 0x3A :: Y) = some (m.key, 0x3A :: Y)) ∧
      ∀ (f c : Nat) (Y : Bytes), (c = 0x2C ∨ c = 0x7D) →
        parseValue (f + 1) depth (m.enc ++ c :: Y) = some (m.val, c :: Y) := by
  intro m hm
  simp only [members, List.mem_append, List.mem_ite_nil_left, List.mem_singleton] at hm
  rcases hm with (((rfl | ⟨-, rfl⟩) | ⟨-, rfl⟩) | ⟨-, rfl⟩) | ⟨-, rfl⟩
  · exact ⟨unquote_key (ascii "query") (by decide) (by decide),
      fun f c Y _ => parseValue_string _ _ f depth⟩
  · exact ⟨unquote_key (ascii "server") (by decide) (by decide),
      fun f c Y _ => parseValue_string _ _ f depth⟩
  · exact ⟨unquote_key (ascii "timeout") (by decide) (by decide),
      fun f c Y hc => parseValue_number _ Y c f depth hlo hhi hc⟩
  · exact ⟨unquote_key (ascii "disable_referral") (by decide) (by decide),
      fun f c Y _ => parseValue_true _ f depth⟩
  · exact ⟨unquote_key (ascii "parse_json") (by decide) (by decide),
      fun f c Y _ => parseValue_true _ f depth⟩

theorem members_cons (v : WhoisLookupParams) :
    ∃ ms, members v
        = ⟨ascii "query", appendString v.Query, JVal.string (coerceUTF8 v.Query)⟩ :: ms ∧
      ms.length ≤ 4 := by
  unfold members
  split_ifs <;> simp

theorem parseValue_Marshal (v : WhoisLookupParams)
    (hlo : -(2 ^ 63) ≤ v.Timeout) (hhi : v.Timeout < 2 ^ 63) :
    parseValue ((Marshal v).length + 1) 0 (Marshal v)
      = some (JVal.object ((members v).map fun m => (m.key, m.val)), []) := by
  obtain ⟨ms, hms, hlen⟩ := members_cons v
  have hg := members_good v 1 hlo hhi
  rw [hms] at hg ⊢
  generalize hm0 :
    (⟨ascii "query", appendString v.Query, JVal.string (coerceUTF8 v.Query)⟩ : Member) = m0
    at hms hg ⊢
  have hkey : m0.key = ascii "query" := by rw [← hm0]
  have hM : Marshal v
      = 0x7B :: (m0.field ++ (writeFields 0x2C (ms.map Member.field) ++ [])) := by
    unfold Marshal
    rw [encodeFields_members, hms]
    simp [writeFields]
  have hlenM : ms.length + 2 ≤ (Marshal v).length := by
    rw [hM]
    simp only [Member.field, hkey, List.length_cons, List.length_append]
    have : (ascii "query").length = 5 := rfl
    omega
  have hpm := parseMembers_fields ms m0 (Marshal v).length 1 [] hg hlenM
  have hstep : ∀ (L : Nat) (R : Bytes) (r : List (Bytes × JVal)),
      parseMembers L 1 (m0.field ++ R) = some (r, []) →
      parseValue (L + 1) 0 (0x7B :: (m0.field ++ R)) = some (JVal.object r, []) := by
    intro L R r h
    have hf : m0.field ++ R = 0x22 :: (m0.key ++ 0x22 :: 0x3A :: (m0.enc ++ R)) := by
      simp [Member.field]
    rw [hf] at h ⊢
    rw [parseValue]
    simp [skipSpace, isSpace, maxNestingDepth, h]
  have h := hstep _ _ _ hpm
  rw [← hM] at h
  exact h

theorem setField_query (v : WhoisLookupParams) (s : Bytes) :
    setField v (ascii "query") (JVal.string s) = some { v with Query := s } := by
  unfold setField
  rw [if_pos rfl]

theorem setField_server (v : WhoisLookupParams) (s : Bytes) :
    setField v (ascii "server") (JVal.string s) = some { v with Server := s } := by
  unfold setField
  rw [if_neg (by decide), if_pos rfl]

theorem setField_timeout (v : WhoisLookupParams) (lit : Bytes) :
    setField v (ascii "timeout") (JVal.number lit)
      = (ParseInt lit).map fun n => { v with Timeout := n } := by
  unfold setField
  rw [if_neg (by decide), if_neg (by decide), if_pos rfl]

theorem setField_disable_referral (v : WhoisLookupParams) (b : Bool) :
    setField v (ascii "disable_referral") (JVal.bool b)
      = some { v with DisableReferral := b } := by
  unfold setField
  rw [if_neg (by decide), if_neg (by decide), if_neg (by decide), if_pos rfl]

theorem setField_parse_json (v : WhoisLookupParams) (b : Bool) :
    setField v (ascii "parse_json") (JVal.bool b) = some { v with ParseJSON := b } := by
  unfold setField
  rw [if_neg (by decide), if_neg (by decide), if_neg (by decide), if_neg (by decide),
    if_pos rfl]

theorem decodeInto_members (v : WhoisLookupParams)
    (hlo : -(2 ^ 63) ≤ v.Timeout) (hhi : v.Timeout < 2 ^ 63) :
    decodeInto (JVal.object ((members v).map fun m => (m.key, m.val))) zero
      = some { v with Query := coerceUTF8 v.Query, Server := coerceUTF8 v.Server } := by
  have hint := ParseInt_AppendInt v.Timeout hlo hhi
  obtain ⟨q, s, t, d, pj⟩ := v
  simp only at hint
  simp only [decodeInto, members]
  by_cases h1 : s.length = 0 <;> by_cases h2 : t = 0 <;> cases d <;> cases pj <;>
    simp [h1, h2, hint, List.foldlM, setField_query, setField_server, setField_timeout,
      setField_disable_referral, setField_parse_json, zero] <;>
    simp_all [coerceUTF8, coerceLoop]

/-! ### The round trip -/

/-- C11, as the code has it: for every request (its timeout a Go integer),
unmarshalling the JSON produced by marshalling it into a zero request succeeds
and yields the request with its query and its server coerced to valid UTF-8,
every invalid byte replaced by U+FFFD, and its other three fields unchanged;
the value yielded is the request itself, in all five fields, exactly when its
query and its server are valid UTF-8; the first member written is always the
`query` key, also when the query is empty; and when every optional field holds
its zero value the `query` member is the only one written. -/
theorem Unmarshal_Marshal_coerced (p : WhoisLookupParams)
    (hlo : -(2 ^ 63) ≤ p.Timeout) (hhi : p.Timeout < 2 ^ 63) :
    Unmarshal (Marshal p) zero
      = some { p with Query := coerceUTF8 p.Query, Server := coerceUTF8 p.Server } ∧
    (Unmarshal (Marshal p) zero = some p ↔
      (ValidString p.Query = true ∧ ValidString p.Server = true)) ∧
    (encodeFields p).head? = some (name "query" ++ appendString p.Query) ∧
    (p.Server = [] → p.Timeout = 0 → p.DisableReferral = false → p.ParseJSON = false →
      Marshal p = 0x7B :: (name "query" ++ appendString p.Query ++ [0x7D])) := by
  have hgen : Unmarshal (Marshal p) zero
      = some { p with Query := coerceUTF8 p.Query, Server := coerceUTF8 p.Server } := by
    unfold Unmarshal
    rw [parseValue_Marshal p hlo hhi]
    simp only [skipSpace, List.dropWhile_nil, if_true]
    exact decodeInto_members p hlo hhi
  refine ⟨hgen, ?_, rfl, ?_⟩
  · rw [hgen, ← coerceUTF8_eq_iff, ← coerceUTF8_eq_iff]
    obtain ⟨q, s, t, d, pj⟩ := p
    simp
  · intro h1 h2 h3 h4
    simp [Marshal, encodeFields, writeFields, h1, h2, h3, h4]

/-- C11, at the request for `example.com` on `whois.iana.org` with a timeout
of ten seconds and both flags set, at the request with an empty query, and at
the request whose query is the bytes `61 FF 62`. -/
theorem Unmarshal_Marshal_coerced_witness :
    (Unmarshal (Marshal ⟨ascii "example.com", ascii "whois.iana.org", 10, true, true⟩) zero
        = some ⟨ascii "example.com", ascii "whois.iana.org", 10, true, true⟩) ∧
    (Unmarshal (Marshal zero) zero = some zero ∧
      Marshal zero = 0x7B :: (name "query" ++ appendString [] ++ [0x7D])) ∧
    Unmarshal (Marshal ⟨[0x61, 0xFF, 0x62], [], 0, false, false⟩) zero
      = some ⟨[0x61, 0xEF, 0xBF, 0xBD, 0x62], [], 0, false, false⟩ :=
  ⟨(Unmarshal_Marshal_coerced ⟨ascii "example.com", ascii "whois.iana.org", 10, true, true⟩
      (by decide) (by decide)).2.1.mpr ⟨by decide, by decide⟩,
    ⟨(Unmarshal_Marshal_coerced zero (by decide) (by decide)).2.1.mpr ⟨by decide, by decide⟩,
      (Unmarshal_Marshal_coerced zero (by decide) (by decide)).2.2.2 rfl rfl rfl rfl⟩,
    (Unmarshal_Marshal_coerced ⟨[0x61, 0xFF, 0x62], [], 0, false, false⟩
      (by decide) (by decide)).1⟩

/-- C11, as the specification words it, fails at the request whose query is the
single byte `0xFF`: marshalling replaces the invalid byte by the replacement
character U+FFFD, so unmarshalling yields the three bytes `EF BF BD` as the
query, which is not the query that was marshalled. -/
theorem Unmarshal_Marshal_invalid_utf8 :
    Unmarshal (Marshal ⟨[0xFF], [], 0, false, false⟩) zero
      = some ⟨[0xEF, 0xBF, 0xBD], [], 0, false, false⟩ ∧
    Unmarshal (Marshal ⟨[0xFF], [], 0, false, false⟩) zero
      ≠ some ⟨[0xFF], [], 0, false, false⟩ := by
  decide

end GoJSON

end Whois
